import Mathlib

set_option autoImplicit false

/-!
Verification of package `lancslru`.

Shallow embedding of `lru.go` (package `lancslru`).

* Pointers `*lruCacheEntry[K, V]` are addresses (`Nat`) into an explicit heap of
  entries; `nil` is `none`.  Allocation appends to the heap, so a fresh address
  never aliases an address that was valid before.
* The Go map `map[K]*lruCacheEntry[K, V]` is an association list read with
  first-match semantics; `mapLen` counts distinct keys, so every list denotes
  a Go map.
* `Lookup` and `cleanup` hold `c.mux` from their first statement to their
  return, so each is one atomic transition on the cache state.  `go c.cleanup()`
  is recorded as the flag `spawned`; the sweep itself is the separate transition
  `cleanup`.
* A loader is a Go closure: it may read and write captured variables.  This is
  the state `σ` threaded through `load`.
* Error values are pointers in Go and are compared by address. Each `GoError`
  carries the address of its allocation; the address of an error that the code
  allocates with `fmt.Errorf` is a parameter (`eid`) of the embedded function.
* Dereferencing an address outside the heap cannot happen in Go; the embedding
  returns `none` there.  The loop of `cleanup` takes fuel and returns `none` when
  the fuel runs out.
-/

namespace Lancslru

/-! ## Go `error` values -/

/-- Go errors as used by the package: `errorString` is what `errors.New` and
`fmt.Errorf` without `%w` build, `wrapError` is what `fmt.Errorf` with one `%w`
builds. Both are pointers in Go and `==` compares the pointers: `id` stands for
the address of the allocated value, so that two values are equal exactly when
they are the same allocation. -/
inductive GoError where
  | errorString (id : Nat) (s : String)
  | wrapError (id : Nat) (msg : String) (err : GoError)
  deriving DecidableEq

/-- Method `Error()`. -/
def GoError.Error : GoError → String
  | .errorString _ s => s
  | .wrapError _ msg _ => msg

/-- Method `Unwrap()`, `none` when the error wraps nothing. -/
def GoError.Unwrap : GoError → Option GoError
  | .errorString _ _ => none
  | .wrapError _ _ err => some err

/-- Call `fmt.Errorf(format, err)` for a format `text ++ "%w"`; `id` is the
address of the value it allocates. -/
def Errorf_w (id : Nat) (text : String) (err : GoError) : GoError :=
  .wrapError id (text ++ err.Error) err

/-- Call `errors.Is(err, target)`: walk the `Unwrap` chain comparing with `==`. -/
def errorsIs : GoError → GoError → Bool
  | .errorString id s, target => decide (GoError.errorString id s = target)
  | .wrapError id msg err, target =>
    decide (GoError.wrapError id msg err = target) || errorsIs err target

/-! ## Data model -/

/-- Type `lruCacheEntry[K, V]`; `younger` is a pointer, `none` for `nil`. -/
structure lruCacheEntry (K V : Type) where
  k : K
  v : V
  younger : Option Nat
  deriving DecidableEq

/-- Lookup `m[key]` in a Go map (comma-ok form: `none` when absent). -/
def mapGet {K : Type} [DecidableEq K] : List (K × Nat) → K → Option Nat
  | [], _ => none
  | (k, p) :: rest, key => if k = key then some p else mapGet rest key

/-- Builtin `delete(m, key)`. -/
def mapDelete {K : Type} [DecidableEq K] (m : List (K × Nat)) (key : K) : List (K × Nat) :=
  m.filter (fun kp => decide (kp.1 ≠ key))

/-- Assignment `m[key] = p`. -/
def mapSet {K : Type} [DecidableEq K] (m : List (K × Nat)) (key : K) (p : Nat) :
    List (K × Nat) :=
  (key, p) :: mapDelete m key

/-- Builtin `len(m)`: the number of distinct keys. -/
def mapLen {K : Type} [DecidableEq K] (m : List (K × Nat)) : Nat :=
  ((m.map Prod.fst).dedup).length

/-- Type `Cache[K, V]` without its mutex, together with the heap its pointers
live in. -/
structure Cache (K V : Type) where
  cap : Int
  lookup : List (K × Nat)
  oldest : Option Nat
  youngest : Option Nat
  heap : List (lruCacheEntry K V)
  deriving DecidableEq

/-- Function `New`. The size hint `cap+2` of `make` has no observable effect. -/
def New {K V : Type} (cap : Int) : Cache K V :=
  { cap := cap, lookup := [], oldest := none, youngest := none, heap := [] }

/-- A loader `func(context.Context, K) (V, error)` as a closure over state `σ`. -/
abbrev Loader (Ctx K V σ : Type) := Ctx → K → σ → (V × Option GoError) × σ

/-- What one call of `Lookup` produces: the two return values, the cache after
the call, the loader's captured state after the call, and whether
`go c.cleanup()` was executed. -/
structure LookupResult (K V σ : Type) where
  value : V
  err : Option GoError
  cache : Cache K V
  world : σ
  spawned : Bool
  deriving DecidableEq

/-- Method `Cache.Lookup`. The mutex is held for the whole body, so the call is
one transition. `default` is the zero value of `V` (`var zero V`); the
`spawned` flag records the statement `go c.cleanup()`; `eid` is the address at
which `fmt.Errorf` allocates the error of the failure path. -/
def Lookup {Ctx K V σ : Type} [DecidableEq K] [Inhabited V] (eid : Nat) (c : Cache K V)
    (ctx : Ctx) (key : K) (load : Loader Ctx K V σ) (w : σ) : Option (LookupResult K V σ) :=
  match mapGet c.lookup key with
  | some entry =>
    match c.heap[entry]? with
    | none => none
    | some e => some { value := e.v, err := none, cache := c, world := w, spawned := false }
  | none =>
    match load ctx key w with
    | ((_, some err), w1) =>
      some { value := default, err := some (Errorf_w eid "loading value for key: " err),
             cache := c, world := w1, spawned := false }
    | ((value, none), w1) =>
      let newest := c.heap.length
      let heap1 := c.heap ++ [{ k := key, v := value, younger := none }]
      match c.youngest with
      | some y =>
        match heap1[y]? with
        | none => none
        | some ye =>
          some { value := value, err := none,
                 cache := { c with heap := heap1.set y { ye with younger := some newest },
                                   youngest := some newest,
                                   lookup := mapSet c.lookup key newest },
                 world := w1, spawned := true }
      | none =>
        some { value := value, err := none,
               cache := { c with heap := heap1, youngest := some newest,
                                 lookup := mapSet c.lookup key newest },
               world := w1, spawned := true }

/-- Method `Cache.cleanup`: the `for` loop, at most `fuel` evaluations of its
condition. -/
def cleanup {K V : Type} [DecidableEq K] : Nat → Cache K V → Option (Cache K V)
  | 0, _ => none
  | fuel + 1, c =>
    if (mapLen c.lookup : Int) > c.cap then
      match c.oldest with
      | none => some c
      | some o =>
        match c.heap[o]? with
        | none => none
        | some e => cleanup fuel { c with oldest := e.younger, lookup := mapDelete c.lookup e.k }
    else some c

/-! ## Specification vocabulary -/

/-- Go memory safety for a cache state: every non-nil pointer held by the cache
(map values, `oldest`, `youngest`, `younger` links) is the address of an
allocated entry. -/
def Cache.Valid {K V : Type} (c : Cache K V) : Prop :=
  (∀ kp ∈ c.lookup, kp.2 < c.heap.length) ∧
  (∀ p, c.oldest = some p → p < c.heap.length) ∧
  (∀ p, c.youngest = some p → p < c.heap.length) ∧
  (∀ e ∈ c.heap, ∀ p, e.younger = some p → p < c.heap.length)

/-- The value stored for `key`: `c.lookup[key].v`, `none` when the key is absent. -/
def Cache.stored {K V : Type} [DecidableEq K] (c : Cache K V) (key : K) : Option V :=
  (mapGet c.lookup key).bind (fun p => (c.heap[p]?).map (fun e => e.v))

/-- A loader instrumented with a call log: behaves as `load` and appends the
arguments of every invocation to the log. -/
def logged {Ctx K V σ : Type} (load : Loader Ctx K V σ) :
    Loader Ctx K V (σ × List (Ctx × K)) :=
  fun ctx k s => ((load ctx k s.1).1, ((load ctx k s.1).2, s.2 ++ [(ctx, k)]))

/-- The recency chain: `IsChain h o chain` says that following the `younger`
links from pointer `o` visits exactly the addresses and entries of `chain`, in
order, and ends in `nil`. -/
def IsChain {K V : Type} (h : List (lruCacheEntry K V)) :
    Option Nat → List (Nat × lruCacheEntry K V) → Prop
  | o, [] => o = none
  | o, (p, e) :: rest => o = some p ∧ h[p]? = some e ∧ IsChain h e.younger rest

/-- A stateless loader returning `f key` that counts its invocations. -/
def countingLoader {K V : Type} (f : K → V) : Loader Unit K V Nat :=
  fun _ k n => ((f k, none), n + 1)

/-- A loader that always fails with the error `e`, counting its invocations. -/
def failingLoader {K V : Type} [Inhabited V] (e : GoError) : Loader Unit K V Nat :=
  fun _ _ n => ((default, some e), n + 1)

/-! ## Test scenarios of `lru_test.go` -/

/-- The map `kv` of the test `evicts least-recently-used entry`; a Go map read
yields the zero value for a missing key. -/
def kv : Nat → String
  | 1 => "k1"
  | 2 => "k2"
  | 3 => "k3"
  | _ => ""

/-- The closure `load` of that test; the captured variable `didLookup` is the
state, which `load` does not touch. -/
def testLoad : Loader Unit Nat String Bool := fun _ key didLookup => ((kv key, none), didLookup)

/-- The closure passed to the last `Lookup` of that test: sets `didLookup`. -/
def testLoadFlag : Loader Unit Nat String Bool := fun _ key _ => ((kv key, none), true)

/-- The test `evicts least-recently-used entry` up to and including the completed
background sweep, then the final `Lookup(ctx, 2, ...)` started with
`didLookup = false`. -/
def evictionTest (fuel : Nat) : Option (LookupResult Nat String Bool) :=
  (Lookup 0 (New 2) () 1 testLoad false).bind fun r1 =>
  (Lookup 0 r1.cache () 2 testLoad r1.world).bind fun r2 =>
  (Lookup 0 r2.cache () 1 testLoad r2.world).bind fun r3 =>
  (Lookup 0 r3.cache () 3 testLoad r3.world).bind fun r4 =>
  (cleanup fuel r4.cache).bind fun c5 =>
  Lookup 0 c5 () 2 testLoadFlag false

/-- Two inserts into a cache of capacity 1, each followed by its sweep. -/
def overfill (fuel : Nat) : Option (Cache Nat String) :=
  (Lookup 0 (New 1) () 1 testLoad false).bind fun r1 =>
  (cleanup fuel r1.cache).bind fun c1 =>
  (Lookup 0 c1 () 2 testLoad r1.world).bind fun r2 =>
  cleanup fuel r2.cache

/-- The first three calls of the eviction test: insert 1, insert 2, hit 1. -/
def hitAfterTwoInserts : Option (LookupResult Nat String Bool) :=
  (Lookup 0 (New 2) () 1 testLoad false).bind fun r1 =>
  (Lookup 0 r1.cache () 2 testLoad r1.world).bind fun r2 =>
  Lookup 0 r2.cache () 1 testLoad r2.world

/-- A cache of capacity 2 holding keys 1, 2, 3 (inserted in that order) whose
`oldest` pointer and `younger` links describe the full recency order. -/
def wellLinked : Cache Nat String :=
  ⟨2, [(3, 2), (2, 1), (1, 0)], some 0, some 2,
    [⟨1, "k1", some 1⟩, ⟨2, "k2", some 2⟩, ⟨3, "k3", none⟩]⟩

/-- The recency chain of `wellLinked`, oldest first. -/
def wellLinkedChain : List (Nat × lruCacheEntry Nat String) :=
  [(0, ⟨1, "k1", some 1⟩), (1, ⟨2, "k2", some 2⟩), (2, ⟨3, "k3", none⟩)]

/-- The shape of a cache state built by inserting the keys of `log` one after
the other (oldest first): `c.oldest` is `nil`, the allocated entries carry the
keys of `log` in order, each entry links to the next one and the last to `nil`,
`c.youngest` is the last entry, and the index maps each key to its entry. -/
def InsertionOrdered {K V : Type} [DecidableEq K] (c : Cache K V) (log : List K) : Prop :=
  c.oldest = none ∧
  c.heap.map (fun e => e.k) = log ∧
  log.Nodup ∧
  (∀ i e, c.heap[i]? = some e →
    e.younger = if i + 1 < c.heap.length then some (i + 1) else none) ∧
  c.youngest = (if c.heap.length = 0 then none else some (c.heap.length - 1)) ∧
  (∀ k p, mapGet c.lookup k = some p ↔ ∃ e, c.heap[p]? = some e ∧ e.k = k)

/-! ## Sequences of operations -/

/-- A loader instrumented with a success log: behaves as `load` and appends the
key to the log whenever the load returns a nil error. -/
def recordOk {Ctx K V σ : Type} (load : Loader Ctx K V σ) : Loader Ctx K V (σ × List K) :=
  fun ctx k s =>
    ((load ctx k s.1).1,
     ((load ctx k s.1).2,
      match (load ctx k s.1).1.2 with
      | none => s.2 ++ [k]
      | some _ => s.2))

/-- One atomic operation on a cache: a call of `Lookup` (with the address of the
error it allocates when the load fails), or one run of the background sweep
`cleanup` (with the fuel its loop may use). -/
inductive Op (Ctx K V σ : Type) where
  | lookup (eid : Nat) (ctx : Ctx) (key : K) (load : Loader Ctx K V σ)
  | sweep (fuel : Nat)

/-- Run one operation. The state is the cache, the captured state of the
loaders, and the log of keys whose load succeeded (oldest first). -/
def runOp {Ctx K V σ : Type} [DecidableEq K] [Inhabited V]
    (s : Cache K V × (σ × List K)) : Op Ctx K V σ → Option (Cache K V × (σ × List K))
  | .lookup eid ctx key load =>
    (Lookup eid s.1 ctx key (recordOk load) s.2).map fun r => (r.cache, r.world)
  | .sweep fuel => (cleanup fuel s.1).map fun c => (c, s.2)

/-- Run a sequence of operations, `none` as soon as one does not return. -/
def run {Ctx K V σ : Type} [DecidableEq K] [Inhabited V]
    (s : Cache K V × (σ × List K)) : List (Op Ctx K V σ) → Option (Cache K V × (σ × List K))
  | [] => some s
  | op :: ops => (runOp s op).bind fun s1 => run s1 ops

/-- The operations of the test `evicts least-recently-used entry`, sweeps
included. -/
def evictionTestOps : List (Op Unit Nat String Bool) :=
  [.lookup 0 () 1 testLoad, .sweep 1, .lookup 0 () 2 testLoad, .sweep 1,
   .lookup 0 () 1 testLoad, .lookup 0 () 3 testLoad, .sweep 1]

/-! ## The demo handler of `cmd/birthdayserver` -/

/-- Type `internal.Birthday` (a `time.Time`), as the civil date `Format` prints. -/
structure Birthday where
  year : Int
  month : Nat
  day : Nat
  deriving DecidableEq

/-- Function `appendInt` of package `time`: a minus sign for a negative number,
then the decimal digits, zero-padded to at least `width`. -/
def appendInt (x : Int) (width : Nat) : String :=
  (if x < 0 then "-" else "") ++
    String.mk (List.replicate (width - (Nat.repr x.natAbs).length) '0') ++ Nat.repr x.natAbs

/-- Method `Birthday.String`: `time.Time(b).Format("2006-01-02")`. -/
def Birthday.String (b : Birthday) : String :=
  appendInt b.year 4 ++ "-" ++ appendInt b.month 2 ++ "-" ++ appendInt b.day 2

/-- What the handler leaves in the `http.ResponseWriter`. -/
structure Response where
  status : Nat
  body : String
  deriving DecidableEq

/-- Function `http.Error`: the status code, and the message followed by a
newline as body. -/
def httpError (msg : String) (code : Nat) : Response :=
  ⟨code, msg ++ "\n"⟩

/-- Function `http.NotFound`. -/
def httpNotFound : Response :=
  httpError "404 page not found" 404

/-- What one request produces: the response, the getter's captured state after
the call, and the records written with `slog.ErrorContext` (message, name,
error). -/
structure HandlerResult (σ : Type) where
  resp : Response
  world : σ
  slog : List (String × String × String)

/-- The `http.HandlerFunc` returned by `GetBirthdayHandler`, as a function of
the path value `n`. The sentinel `internal.ErrNotFound`, declared elsewhere in
package `internal`, is a parameter; `eid` is the address of the error value
that `fmt.Errorf` allocates on the path taken. -/
def GetBirthdayHandler {Ctx σ : Type} (ErrNotFound : GoError) (eid : Nat)
    (getBirthday : Loader Ctx String Birthday σ) (ctx : Ctx) (n : String) (w : σ) :
    HandlerResult σ :=
  if n = "" then
    { resp := httpError (GoError.errorString eid ("name" ++ " is required")).Error 400,
      world := w, slog := [] }
  else
    match getBirthday ctx n w with
    | ((_, some err), w1) =>
      if errorsIs err ErrNotFound then
        { resp := httpNotFound, world := w1, slog := [] }
      else
        { resp := httpError (Errorf_w eid "an unknown error occurred: " err).Error 500,
          world := w1, slog := [("failed to fetch birthday", n, err.Error)] }
    | ((date, none), w1) =>
      { resp := ⟨200, "\x7b\"birthday\":\"" ++ date.String ++ "\"\x7d"⟩, world := w1,
        slog := [] }

/-- The layout YYYY-MM-DD in the spec's words, for comparison with
`Birthday.String`: the four decimal digits of the year, a hyphen, the two decimal
digits of the month, a hyphen, the two decimal digits of the day. -/
def isoDate (year month day : Nat) : String :=
  String.mk [Nat.digitChar (year / 1000 % 10), Nat.digitChar (year / 100 % 10),
    Nat.digitChar (year / 10 % 10), Nat.digitChar (year % 10), '-',
    Nat.digitChar (month / 10 % 10), Nat.digitChar (month % 10), '-',
    Nat.digitChar (day / 10 % 10), Nat.digitChar (day % 10)]

/-- A getter that fails with `e`, as `LookupBirthday` does: the zero
`internal.Birthday` (0001-01-01) and the error; it counts its invocations. -/
def failingGetter (e : GoError) : Loader Unit String Birthday Nat :=
  fun _ _ n => ((⟨1, 1, 1⟩, some e), n + 1)

/-- A getter that succeeds with the date `d`; it counts its invocations. -/
def constGetter (d : Birthday) : Loader Unit String Birthday Nat :=
  fun _ _ n => ((d, none), n + 1)

/-! ## Basic facts about the map operations -/

section MapLemmas
variable {K : Type} [DecidableEq K]

theorem mapGet_mapDelete (m : List (K × Nat)) (key k : K) :
    mapGet (mapDelete m key) k = if k = key then none else mapGet m k := by
  induction m with
  | nil => simp [mapDelete, mapGet]
  | cons hd tl ih =>
    obtain ⟨a, q⟩ := hd
    simp only [mapDelete] at ih ⊢
    by_cases hak : a = key
    · subst hak
      simp only [List.filter_cons, ne_eq, not_true_eq_false, decide_False, Bool.false_eq_true,
        if_false, ih, mapGet]
      by_cases hk : k = a
      · simp [hk]
      · have : ¬ a = k := fun h => hk h.symm
        simp [hk, this]
    · simp only [List.filter_cons, ne_eq, hak, not_false_eq_true, decide_True, if_true, mapGet, ih]
      by_cases hk : a = k
      · have : ¬ k = key := fun h => hak (hk.trans h)
        simp [hk, this]
      · simp [hk]

theorem mapGet_mapSet (m : List (K × Nat)) (key k : K) (p : Nat) :
    mapGet (mapSet m key p) k = if k = key then some p else mapGet m k := by
  simp only [mapSet, mapGet, mapGet_mapDelete]
  by_cases hk : k = key
  · simp [hk]
  · have : ¬ key = k := fun h => hk h.symm
    simp [hk, this]

theorem mapGet_isSome_iff (m : List (K × Nat)) (k : K) :
    (∃ p, mapGet m k = some p) ↔ k ∈ m.map Prod.fst := by
  induction m with
  | nil => simp [mapGet]
  | cons hd tl ih =>
    obtain ⟨a, q⟩ := hd
    by_cases hak : a = k
    · simp [mapGet, hak]
    · have : ¬ k = a := fun h => hak h.symm
      simp only [mapGet, hak, if_false, ih, List.map_cons, List.mem_cons, this, false_or]

theorem mapGet_mem (m : List (K × Nat)) (k : K) (p : Nat) (h : mapGet m k = some p) :
    (k, p) ∈ m := by
  induction m with
  | nil => simp [mapGet] at h
  | cons hd tl ih =>
    obtain ⟨a, q⟩ := hd
    by_cases hak : a = k
    · simp only [mapGet, hak, if_true, Option.some.injEq] at h
      simp [hak, h]
    · simp only [mapGet, hak, if_false] at h
      exact List.mem_cons_of_mem _ (ih h)

theorem mem_mapDelete (m : List (K × Nat)) (key : K) (kp : K × Nat) :
    kp ∈ mapDelete m key ↔ kp ∈ m ∧ kp.1 ≠ key := by
  simp [mapDelete]

end MapLemmas

/-! ## Unfolding `Lookup` path by path -/

section LookupLemmas
variable {Ctx K V σ : Type} [DecidableEq K] [Inhabited V]

theorem Lookup_hit (eid : Nat) (c : Cache K V) (ctx : Ctx) (key : K) (load : Loader Ctx K V σ) (w : σ)
    (p : Nat) (e : lruCacheEntry K V) (hk : mapGet c.lookup key = some p)
    (hp : c.heap[p]? = some e) :
    Lookup eid c ctx key load w =
      some { value := e.v, err := none, cache := c, world := w, spawned := false } := by
  simp [Lookup, hk, hp]

theorem Lookup_fail (eid : Nat) (c : Cache K V) (ctx : Ctx) (key : K) (load : Loader Ctx K V σ) (w w1 : σ)
    (v0 : V) (err : GoError) (hk : mapGet c.lookup key = none)
    (hload : load ctx key w = ((v0, some err), w1)) :
    Lookup eid c ctx key load w =
      some { value := default, err := some (Errorf_w eid "loading value for key: " err),
             cache := c, world := w1, spawned := false } := by
  simp [Lookup, hk, hload]

theorem Lookup_store_first (eid : Nat) (c : Cache K V) (ctx : Ctx) (key : K) (load : Loader Ctx K V σ)
    (w w1 : σ) (v : V) (hk : mapGet c.lookup key = none)
    (hload : load ctx key w = ((v, none), w1)) (hy : c.youngest = none) :
    Lookup eid c ctx key load w =
      some { value := v, err := none,
             cache := { c with heap := c.heap ++ [{ k := key, v := v, younger := none }],
                               youngest := some c.heap.length,
                               lookup := mapSet c.lookup key c.heap.length },
             world := w1, spawned := true } := by
  simp [Lookup, hk, hload, hy]

theorem Lookup_store_next (eid : Nat) (c : Cache K V) (ctx : Ctx) (key : K) (load : Loader Ctx K V σ)
    (w w1 : σ) (v : V) (y : Nat) (ye : lruCacheEntry K V)
    (hk : mapGet c.lookup key = none) (hload : load ctx key w = ((v, none), w1))
    (hy : c.youngest = some y) (hye : c.heap[y]? = some ye) :
    Lookup eid c ctx key load w =
      some { value := v, err := none,
             cache := { c with heap := (c.heap ++ [(⟨key, v, none⟩ : lruCacheEntry K V)]).set y
                                         ({ ye with younger := some c.heap.length } :
                                           lruCacheEntry K V),
                               youngest := some c.heap.length,
                               lookup := mapSet c.lookup key c.heap.length },
             world := w1, spawned := true } := by
  have hlt : y < c.heap.length := by
    rcases Nat.lt_or_ge y c.heap.length with h | h
    · exact h
    · rw [List.getElem?_eq_none h] at hye; cases hye
  have h1 : (c.heap ++ [({ k := key, v := v, younger := none } : lruCacheEntry K V)])[y]?
      = some ye := by
    rw [List.getElem?_append_left hlt]; exact hye
  simp [Lookup, hk, hload, hy, h1]

end LookupLemmas

/-! ## Facts shared by the claims -/

section Shared

theorem stored_eq_some_iff {K V : Type} [DecidableEq K] (c : Cache K V) (key : K) (v : V) :
    c.stored key = some v ↔
      ∃ p e, mapGet c.lookup key = some p ∧ c.heap[p]? = some e ∧ e.v = v := by
  unfold Cache.stored
  cases hm : mapGet c.lookup key with
  | none => simp
  | some p =>
    cases hh : c.heap[p]? with
    | none => simp [hh]
    | some e => simp [hh]

theorem cleanup_oldest_nil {K V : Type} [DecidableEq K] (c : Cache K V) (fuel : Nat) (h : c.oldest = none) :
    cleanup (fuel + 1) c = some c := by
  simp only [cleanup, h]
  split <;> rfl

theorem New_valid {K V : Type} (cap : Int) : (New cap : Cache K V).Valid := by
  simp [Cache.Valid, New]

theorem getElem?_of_lt {α : Type} (l : List α) (i : Nat) (h : i < l.length) :
    ∃ a, l[i]? = some a :=
  ⟨l[i], List.getElem?_eq_getElem h⟩

/-- The state after a successful miss, whichever branch of `if c.youngest != nil`
is taken. -/
theorem Lookup_store {Ctx K V σ : Type} [DecidableEq K] [Inhabited V] (eid : Nat) (c : Cache K V) (ctx : Ctx) (key : K) (load : Loader Ctx K V σ)
    (w w1 : σ) (v : V) (hk : mapGet c.lookup key = none)
    (hload : load ctx key w = ((v, none), w1))
    (hy : ∀ y, c.youngest = some y → y < c.heap.length) :
    ∃ r, Lookup eid c ctx key load w = some r ∧ r.value = v ∧ r.err = none ∧ r.world = w1 ∧
      r.spawned = true ∧ r.cache.cap = c.cap ∧ r.cache.oldest = c.oldest ∧
      r.cache.youngest = some c.heap.length ∧
      r.cache.lookup = mapSet c.lookup key c.heap.length ∧
      r.cache.heap.length = c.heap.length + 1 ∧
      r.cache.heap[c.heap.length]? = some (⟨key, v, none⟩ : lruCacheEntry K V) ∧
      (∀ (p : Nat) (e : lruCacheEntry K V), c.heap[p]? = some e →
        r.cache.heap[p]? =
          some (⟨e.k, e.v, if c.youngest = some p then some c.heap.length else e.younger⟩ :
            lruCacheEntry K V)) := by
  cases hyo : c.youngest with
  | none =>
    refine ⟨_, Lookup_store_first eid c ctx key load w w1 v hk hload hyo, rfl, rfl, rfl, rfl, rfl,
      rfl, rfl, rfl, ?_, ?_, ?_⟩
    · simp
    · simp
    · intro p e hp
      have hlt : p < c.heap.length := by
        rcases Nat.lt_or_ge p c.heap.length with h | h
        · exact h
        · rw [List.getElem?_eq_none h] at hp; cases hp
      simp [List.getElem?_append_left hlt, hp]
  | some y =>
    have hlt := hy y hyo
    obtain ⟨ye, hye⟩ := getElem?_of_lt c.heap y hlt
    refine ⟨_, Lookup_store_next eid c ctx key load w w1 v y ye hk hload hyo hye, rfl, rfl, rfl,
      rfl, rfl, rfl, rfl, rfl, ?_, ?_, ?_⟩
    · simp
    · have hne : y ≠ c.heap.length := Nat.ne_of_lt hlt
      simp [List.getElem?_set, hne]
    · intro p e hp
      have hpl : p < c.heap.length := by
        rcases Nat.lt_or_ge p c.heap.length with h | h
        · exact h
        · rw [List.getElem?_eq_none h] at hp; cases hp
      by_cases hpy : y = p
      · subst hpy
        have : ye = e := by rw [hye] at hp; exact Option.some.inj hp
        subst this
        have hl2 : y < (c.heap.set y
            (⟨ye.k, ye.v, some c.heap.length⟩ : lruCacheEntry K V)).length := by
          simpa using hlt
        simp [List.getElem?_append_left hl2, List.getElem?_set, hlt]
      · have hpy2 : ¬ p = y := fun h => hpy h.symm
        simp [List.getElem?_set, hpy, hpy2, List.getElem?_append_left hpl, hp]

theorem heap_lt_of_getElem? {α : Type} (l : List α) (i : Nat) (a : α) (h : l[i]? = some a) :
    i < l.length := by
  rcases Nat.lt_or_ge i l.length with h1 | h1
  · exact h1
  · rw [List.getElem?_eq_none h1] at h; cases h

theorem errorsIs_self (e : GoError) : errorsIs e e = true := by
  cases e <;> simp [errorsIs]

theorem errorsIs_Errorf_w (id : Nat) (text : String) (e target : GoError)
    (h : errorsIs e target = true) : errorsIs (Errorf_w id text e) target = true := by
  simp [Errorf_w, errorsIs, h]

theorem logged_apply {Ctx K V σ : Type} (load : Loader Ctx K V σ) (ctx : Ctx) (k : K) (w : σ)
    (log : List (Ctx × K)) :
    logged load ctx k (w, log) = ((load ctx k w).1, ((load ctx k w).2, log ++ [(ctx, k)])) :=
  rfl

/-- With the index holding exactly the entries of a chain with distinct keys,
`len(c.lookup)` is the length of the chain. -/
theorem mapLen_eq_chain_length {K V : Type} [DecidableEq K] (m : List (K × Nat))
    (chain : List (Nat × lruCacheEntry K V))
    (hnodup : (chain.map (fun pe => pe.2.k)).Nodup)
    (hindex : ∀ k p, mapGet m k = some p ↔ ∃ e, (p, e) ∈ chain ∧ e.k = k) :
    mapLen m = chain.length := by
  have hset : (m.map Prod.fst).toFinset = (chain.map (fun pe => pe.2.k)).toFinset := by
    ext k
    rw [List.mem_toFinset, List.mem_toFinset, ← mapGet_isSome_iff]
    constructor
    · rintro ⟨p, hp⟩
      obtain ⟨e, he, hk⟩ := (hindex k p).1 hp
      exact List.mem_map.2 ⟨(p, e), he, hk⟩
    · intro h
      obtain ⟨⟨p, e⟩, he, hk⟩ := List.mem_map.1 h
      exact ⟨p, (hindex k p).2 ⟨e, he, hk⟩⟩
  unfold mapLen
  rw [← List.card_toFinset, hset, List.toFinset_card_of_nodup hnodup, List.length_map]

/-- The sweep on a well-formed chain, by induction on the chain. -/
theorem cleanup_chain {K V : Type} [DecidableEq K] (chain : List (Nat × lruCacheEntry K V)) :
    ∀ (c : Cache K V) (fuel : Nat),
      IsChain c.heap c.oldest chain →
      (chain.map (fun pe => pe.2.k)).Nodup →
      (∀ k p, mapGet c.lookup k = some p ↔ ∃ e, (p, e) ∈ chain ∧ e.k = k) →
      chain.length < fuel →
      ∃ c1, cleanup fuel c = some c1 ∧ c1.heap = c.heap ∧ c1.cap = c.cap ∧
        c1.youngest = c.youngest ∧
        IsChain c.heap c1.oldest (chain.drop ((chain.length : Int) - c.cap).toNat) ∧
        (∀ k, mapGet c1.lookup k =
          if k ∈ (chain.take ((chain.length : Int) - c.cap).toNat).map (fun pe => pe.2.k)
          then none else mapGet c.lookup k) := by
  induction chain with
  | nil =>
    intro c fuel hchain _ _ hfuel
    obtain ⟨f, rfl⟩ : ∃ f, fuel = f + 1 := ⟨fuel - 1, by simp at hfuel; omega⟩
    have ho : c.oldest = none := hchain
    exact ⟨c, cleanup_oldest_nil c f ho, rfl, rfl, rfl, by simpa [IsChain] using ho, by simp⟩
  | cons hd rest ih =>
    obtain ⟨p, e⟩ := hd
    intro c fuel hchain hnodup hindex hfuel
    obtain ⟨f, rfl⟩ : ∃ f, fuel = f + 1 := ⟨fuel - 1, by simp at hfuel; omega⟩
    obtain ⟨ho, hp, hrest⟩ := hchain
    have hlen : mapLen c.lookup = rest.length + 1 := by
      rw [mapLen_eq_chain_length c.lookup ((p, e) :: rest) hnodup hindex]; rfl
    have hnd := List.nodup_cons.1 hnodup
    by_cases hcond : ((rest.length + 1 : Nat) : Int) > c.cap
    · -- one iteration, then the sweep on the rest of the chain
      have hindex1 : ∀ k q, mapGet (mapDelete c.lookup e.k) k = some q ↔
          ∃ e1, (q, e1) ∈ rest ∧ e1.k = k := by
        intro k q
        rw [mapGet_mapDelete]
        by_cases hk : k = e.k
        · subst hk
          simp only [if_true]
          constructor
          · intro h; cases h
          · rintro ⟨e1, he1, hk1⟩
            exact absurd (List.mem_map.2 ⟨(q, e1), he1, hk1⟩) hnd.1
        · simp only [hk, if_false, hindex k q]
          constructor
          · rintro ⟨e1, he1, hk1⟩
            rcases List.mem_cons.1 he1 with h | h
            · cases h; exact absurd hk1.symm hk
            · exact ⟨e1, h, hk1⟩
          · rintro ⟨e1, he1, hk1⟩
            exact ⟨e1, List.mem_cons_of_mem _ he1, hk1⟩
      obtain ⟨c1, hc1, hheap, hcap, hyoung, hch, hget⟩ :=
        ih { c with oldest := e.younger, lookup := mapDelete c.lookup e.k } f hrest hnd.2
          hindex1 (by simpa using hfuel)
      have hN : (((((p, e) :: rest).length : Nat) : Int) - c.cap).toNat
          = ((rest.length : Int) - c.cap).toNat + 1 := by
        simp only [List.length_cons]
        have h0 : (0 : Int) ≤ (rest.length : Int) - c.cap := by
          have := hcond
          push_cast at this
          omega
        have h1 : (((rest.length + 1 : Nat) : Int) - c.cap) = ((rest.length : Int) - c.cap) + 1 := by
          push_cast; ring
        rw [h1, Int.toNat_add h0 (by decide)]
        rfl
      have hstep : cleanup (f + 1) c = some c1 := by
        rw [← hc1]
        simp only [cleanup, hlen, hcond, if_true, ho, hp]
      refine ⟨c1, hstep, hheap, hcap, hyoung, ?_, ?_⟩
      · rw [hN]; exact hch
      · intro k
        rw [hN, hget k]
        simp only [List.take_succ_cons, List.map_cons, List.mem_cons, mapGet_mapDelete]
        by_cases hk : k = e.k
        · simp [hk]
        · simp [hk]
    · -- the loop condition is false at once
      have hN : (((((p, e) :: rest).length : Nat) : Int) - c.cap).toNat = 0 := by
        simp only [List.length_cons]
        apply Int.toNat_eq_zero.2
        simp only [gt_iff_lt, not_lt] at hcond
        omega
      have hstep : cleanup (f + 1) c = some c := by
        simp only [cleanup, hlen, hcond, if_false]
      refine ⟨c, hstep, rfl, rfl, rfl, ?_, ?_⟩
      · rw [hN]; exact ⟨ho, hp, hrest⟩
      · intro k; rw [hN]; simp

/-- Memory safety is preserved by `Lookup`. -/
theorem Lookup_preserves_valid {Ctx K V σ : Type} [DecidableEq K] [Inhabited V]
    (eid : Nat) (c : Cache K V) (ctx : Ctx) (key : K) (load : Loader Ctx K V σ) (w : σ)
    (r : LookupResult K V σ) (hvalid : c.Valid) (hr : Lookup eid c ctx key load w = some r) :
    r.cache.Valid := by
  cases hk : mapGet c.lookup key with
  | some p =>
    obtain ⟨e, he⟩ := getElem?_of_lt c.heap p
      (hvalid.1 (key, p) (mapGet_mem c.lookup key p hk))
    rw [Lookup_hit eid c ctx key load w p e hk he] at hr
    cases hr
    exact hvalid
  | none =>
    rcases hl : load ctx key w with ⟨⟨v, oe⟩, w1⟩
    cases oe with
    | some e =>
      rw [Lookup_fail eid c ctx key load w w1 v e hk hl] at hr
      cases hr
      exact hvalid
    | none =>
      obtain ⟨r1, hr1, -, -, -, -, -, hold, hyoung, hlk, hlen, hnew, hkeep⟩ :=
        Lookup_store eid c ctx key load w w1 v hk hl hvalid.2.2.1
      rw [hr1] at hr
      cases hr
      refine ⟨?_, ?_, ?_, ?_⟩
      · intro kp hkp
        rw [hlk] at hkp
        rw [hlen]
        rcases List.mem_cons.1 hkp with h | h
        · subst h; exact Nat.lt_succ_self _
        · exact Nat.lt_succ_of_lt (hvalid.1 kp ((mem_mapDelete c.lookup key kp).1 h).1)
      · intro p hp
        rw [hold] at hp
        rw [hlen]
        exact Nat.lt_succ_of_lt (hvalid.2.1 p hp)
      · intro p hp
        rw [hyoung] at hp
        cases hp
        rw [hlen]
        exact Nat.lt_succ_self _
      · intro e he p hp
        rw [hlen]
        obtain ⟨i, hi⟩ := List.mem_iff_getElem?.1 he
        have hilt := heap_lt_of_getElem? _ i e hi
        rw [hlen] at hilt
        rcases Nat.lt_succ_iff_lt_or_eq.1 hilt with h | h
        · obtain ⟨e0, he0⟩ := getElem?_of_lt c.heap i h
          have := hkeep i e0 he0
          rw [hi] at this
          cases this
          by_cases hyi : c.youngest = some i
          · simp only [hyi, if_true, Option.some.injEq] at hp
            omega
          · simp only [hyi, if_false] at hp
            exact Nat.lt_succ_of_lt (hvalid.2.2.2 e0 (List.getElem?_mem he0) p hp)
        · subst h
          rw [hnew] at hi
          cases hi
          cases hp

/-- Memory safety is preserved by the sweep. -/
theorem cleanup_preserves_valid {K V : Type} [DecidableEq K] (fuel : Nat) :
    ∀ (c c1 : Cache K V), c.Valid → cleanup fuel c = some c1 → c1.Valid := by
  induction fuel with
  | zero => intro c c1 _ h; simp [cleanup] at h
  | succ f ih =>
    intro c c1 hvalid h
    simp only [cleanup] at h
    split at h
    · cases ho : c.oldest with
      | none =>
        simp only [ho] at h
        cases h
        exact hvalid
      | some o =>
        simp only [ho] at h
        cases hp : c.heap[o]? with
        | none => simp [hp] at h
        | some e =>
          simp only [hp] at h
          refine ih { c with oldest := e.younger, lookup := mapDelete c.lookup e.k } c1
            ⟨?_, ?_, hvalid.2.2.1, hvalid.2.2.2⟩ h
          · intro kp hkp
            exact hvalid.1 kp ((mem_mapDelete c.lookup e.k kp).1 hkp).1
          · intro p hp2
            exact hvalid.2.2.2 e (List.getElem?_mem hp) p hp2
    · cases h
      exact hvalid

theorem recordOk_apply {Ctx K V σ : Type} (load : Loader Ctx K V σ) (ctx : Ctx) (k : K) (w : σ)
    (log : List K) :
    recordOk load ctx k (w, log) =
      ((load ctx k w).1, ((load ctx k w).2,
        match (load ctx k w).1.2 with
        | none => log ++ [k]
        | some _ => log)) :=
  rfl

theorem InsertionOrdered_New {K V : Type} [DecidableEq K] (cap : Int) :
    InsertionOrdered (New cap : Cache K V) [] := by
  refine ⟨rfl, rfl, List.nodup_nil, ?_, rfl, ?_⟩
  · intro i e h; simp [New] at h
  · intro k p; simp [New, mapGet]

/-- A successful insert keeps the insertion-ordered shape and appends the key. -/
theorem InsertionOrdered_insert {K V : Type} [DecidableEq K] (c c1 : Cache K V)
    (log : List K) (key : K) (v : V)
    (hinv : InsertionOrdered c log) (habs : mapGet c.lookup key = none)
    (hold : c1.oldest = c.oldest) (hyoung : c1.youngest = some c.heap.length)
    (hlk : c1.lookup = mapSet c.lookup key c.heap.length)
    (hlen : c1.heap.length = c.heap.length + 1)
    (hnew : c1.heap[c.heap.length]? = some (⟨key, v, none⟩ : lruCacheEntry K V))
    (hkeep : ∀ (p : Nat) (e : lruCacheEntry K V), c.heap[p]? = some e →
      c1.heap[p]? =
        some (⟨e.k, e.v, if c.youngest = some p then some c.heap.length else e.younger⟩ :
          lruCacheEntry K V)) :
    InsertionOrdered c1 (log ++ [key]) := by
  obtain ⟨h1, h2, h3, h4, h5, h6⟩ := hinv
  have hloglen : log.length = c.heap.length := by rw [← h2]; simp
  have hfresh : ∀ (p : Nat) (e : lruCacheEntry K V), c.heap[p]? = some e → e.k ≠ key := by
    intro p e hp hk
    have := (h6 key p).2 ⟨e, hp, hk⟩
    rw [habs] at this
    cases this
  refine ⟨by rw [hold]; exact h1, ?_, ?_, ?_, ?_, ?_⟩
  · -- keys of the allocated entries
    apply List.ext_getElem?
    intro i
    rw [List.getElem?_map]
    rcases Nat.lt_trichotomy i c.heap.length with hi | hi | hi
    · obtain ⟨e, he⟩ := getElem?_of_lt c.heap i hi
      rw [hkeep i e he, List.getElem?_append_left (by rw [hloglen]; exact hi), ← h2,
        List.getElem?_map, he]
      rfl
    · subst hi
      rw [hnew, List.getElem?_append_right (by rw [hloglen]), hloglen]
      simp
    · have hn1 : c1.heap[i]? = none := List.getElem?_eq_none (by rw [hlen]; omega)
      have hn2 : (log ++ [key])[i]? = none :=
        List.getElem?_eq_none (by simp [hloglen]; omega)
      rw [hn1, hn2]
      rfl
  · -- distinct keys
    refine List.nodup_append.2 ⟨h3, List.nodup_singleton key, ?_⟩
    intro a ha hb
    have hak : a = key := by simpa using hb
    subst hak
    rw [← h2] at ha
    obtain ⟨e, he, hk⟩ := List.mem_map.1 ha
    obtain ⟨i, hi⟩ := List.mem_iff_getElem?.1 he
    exact hfresh i e hi hk
  · -- younger links
    intro i e1 hi
    rw [hlen]
    have hilt := heap_lt_of_getElem? _ i e1 hi
    rw [hlen] at hilt
    rcases Nat.lt_succ_iff_lt_or_eq.1 hilt with h | h
    · obtain ⟨e0, he0⟩ := getElem?_of_lt c.heap i h
      have hk := hkeep i e0 he0
      rw [hi] at hk
      cases hk
      have h40 := h4 i e0 he0
      have hne : ¬ c.heap.length = 0 := by omega
      simp only [h5, hne, if_false, Option.some.injEq, h40]
      by_cases hlast : c.heap.length - 1 = i
      · have : i + 1 < c.heap.length + 1 := by omega
        simp only [hlast, if_true, this]
        congr 1
        omega
      · have h2lt : i + 1 < c.heap.length := by omega
        have h3lt : i + 1 < c.heap.length + 1 := by omega
        simp only [hlast, if_false, h2lt, if_true, h3lt]
    · subst h
      rw [hnew] at hi
      cases hi
      simp
  · rw [hyoung, hlen]
    simp
  · -- the index
    intro k p
    rw [hlk, mapGet_mapSet]
    by_cases hk : k = key
    · subst hk
      simp only [if_true, Option.some.injEq]
      constructor
      · intro h; subst h; exact ⟨_, hnew, rfl⟩
      · rintro ⟨e1, hp, hk1⟩
        have hplt := heap_lt_of_getElem? _ p e1 hp
        rw [hlen] at hplt
        rcases Nat.lt_succ_iff_lt_or_eq.1 hplt with h | h
        · obtain ⟨e0, he0⟩ := getElem?_of_lt c.heap p h
          have hkk := hkeep p e0 he0
          rw [hp] at hkk
          cases hkk
          exact absurd hk1 (hfresh p e0 he0)
        · exact h.symm
    · simp only [hk, if_false, h6 k p]
      constructor
      · rintro ⟨e0, he0, hk0⟩
        exact ⟨_, hkeep p e0 he0, hk0⟩
      · rintro ⟨e1, hp, hk1⟩
        have hplt := heap_lt_of_getElem? _ p e1 hp
        rw [hlen] at hplt
        rcases Nat.lt_succ_iff_lt_or_eq.1 hplt with h | h
        · obtain ⟨e0, he0⟩ := getElem?_of_lt c.heap p h
          have hkk := hkeep p e0 he0
          rw [hp] at hkk
          cases hkk
          exact ⟨e0, he0, hk1⟩
        · subst h
          rw [hnew] at hp
          cases hp
          exact absurd hk1.symm hk

/-- On an insertion-ordered state every `Lookup` returns, keeps the shape (with
the success log the instrumented loader maintains) and keeps `cap`; it changes
the state only when it inserts. -/
theorem Lookup_insertionOrdered {Ctx K V σ : Type} [DecidableEq K] [Inhabited V]
    (eid : Nat) (c : Cache K V) (ctx : Ctx) (key : K) (load : Loader Ctx K V σ) (w : σ) (log : List K)
    (hinv : InsertionOrdered c log) :
    ∃ r, Lookup eid c ctx key (recordOk load) (w, log) = some r ∧
      InsertionOrdered r.cache r.world.2 ∧ r.cache.cap = c.cap ∧
      (r.world.2 = log → r.cache = c) := by
  cases hk : mapGet c.lookup key with
  | some p =>
    obtain ⟨e, he, -⟩ := (hinv.2.2.2.2.2 key p).1 hk
    exact ⟨_, Lookup_hit eid c ctx key (recordOk load) (w, log) p e hk he, hinv, rfl, fun _ => rfl⟩
  | none =>
    rcases hl : load ctx key w with ⟨⟨v, oe⟩, w1⟩
    cases oe with
    | some e =>
      have hl2 : recordOk load ctx key (w, log) = ((v, some e), (w1, log)) := by
        rw [recordOk_apply, hl]
      exact ⟨_, Lookup_fail eid c ctx key (recordOk load) (w, log) _ v e hk hl2, hinv, rfl,
        fun _ => rfl⟩
    | none =>
      have hl2 : recordOk load ctx key (w, log) = ((v, none), (w1, log ++ [key])) := by
        rw [recordOk_apply, hl]
      have hy : ∀ y, c.youngest = some y → y < c.heap.length := by
        intro y hy
        rw [hinv.2.2.2.2.1] at hy
        split at hy
        · cases hy
        · cases hy; omega
      obtain ⟨r, hr, -, -, hworld, -, hcap, hold, hyoung, hlk, hlen, hnew, hkeep⟩ :=
        Lookup_store eid c ctx key (recordOk load) (w, log) _ v hk hl2 hy
      refine ⟨r, hr, ?_, hcap, ?_⟩
      · rw [hworld]
        exact InsertionOrdered_insert c r.cache log key v hinv hk hold hyoung hlk hlen hnew
          hkeep
      · intro h
        rw [hworld] at h
        have := congrArg List.length h
        simp at this

/-- Every operation keeps the insertion-ordered shape and `cap`. -/
theorem runOp_preserves {Ctx K V σ : Type} [DecidableEq K] [Inhabited V]
    (s s1 : Cache K V × (σ × List K)) (op : Op Ctx K V σ)
    (hinv : InsertionOrdered s.1 s.2.2) (h : runOp s op = some s1) :
    InsertionOrdered s1.1 s1.2.2 ∧ s1.1.cap = s.1.cap := by
  obtain ⟨c, w, log⟩ := s
  cases op with
  | lookup eid ctx key load =>
    obtain ⟨r, hr, hinv1, hcap, -⟩ := Lookup_insertionOrdered eid c ctx key load w log hinv
    simp only [runOp, hr, Option.map_some', Option.some.injEq] at h
    subst h
    exact ⟨hinv1, hcap⟩
  | sweep fuel =>
    cases fuel with
    | zero => simp [runOp, cleanup] at h
    | succ f =>
      simp only [runOp, cleanup_oldest_nil c f hinv.1, Option.map_some', Option.some.injEq] at h
      subst h
      exact ⟨hinv, rfl⟩

/-- Every sequence of operations keeps the insertion-ordered shape and `cap`. -/
theorem run_preserves {Ctx K V σ : Type} [DecidableEq K] [Inhabited V]
    (ops : List (Op Ctx K V σ)) :
    ∀ (s s1 : Cache K V × (σ × List K)), InsertionOrdered s.1 s.2.2 → run s ops = some s1 →
      InsertionOrdered s1.1 s1.2.2 ∧ s1.1.cap = s.1.cap := by
  induction ops with
  | nil =>
    intro s s1 hinv h
    simp only [run, Option.some.injEq] at h
    subst h
    exact ⟨hinv, rfl⟩
  | cons op ops ih =>
    intro s s1 hinv h
    simp only [run] at h
    cases hop : runOp s op with
    | none => simp [hop] at h
    | some s2 =>
      simp only [hop, Option.some_bind] at h
      obtain ⟨hinv2, hcap2⟩ := runOp_preserves s s2 op hinv hop
      obtain ⟨hinv1, hcap1⟩ := ih s2 s1 hinv2 h
      exact ⟨hinv1, hcap1.trans hcap2⟩

/-- Entries that link each to the next form a chain from any address on. -/
theorem chain_of_links {K V : Type} (h : List (lruCacheEntry K V))
    (hlinks : ∀ i e, h[i]? = some e →
      e.younger = if i + 1 < h.length then some (i + 1) else none)
    (rest : List (lruCacheEntry K V)) :
    ∀ i, h.drop i = rest →
      IsChain h (if i < h.length then some i else none) (rest.enumFrom i) := by
  induction rest with
  | nil =>
    intro i hd
    have hle : h.length ≤ i := List.drop_eq_nil_iff.1 hd
    have : ¬ i < h.length := by omega
    simp [IsChain, this]
  | cons e tl ih =>
    intro i hd
    have hlt : i < h.length := by
      rcases Nat.lt_or_ge i h.length with hh | hh
      · exact hh
      · rw [List.drop_eq_nil_iff.2 hh] at hd; cases hd
    rw [List.drop_eq_getElem_cons hlt] at hd
    have he : h[i] = e := (List.cons.inj hd).1
    have htl : h.drop (i + 1) = tl := (List.cons.inj hd).2
    have hget : h[i]? = some e := by rw [List.getElem?_eq_getElem hlt, he]
    refine ⟨by simp [hlt], hget, ?_⟩
    rw [hlinks i e hget]
    exact ih (i + 1) htl

/-- The recency order of an insertion-ordered state, read along the `younger`
links, is the insertion order. -/
theorem insertionOrdered_chain {K V : Type} [DecidableEq K] (c : Cache K V) (log : List K)
    (hinv : InsertionOrdered c log) :
    ∃ chain : List (Nat × lruCacheEntry K V),
      chain.map (fun pe => pe.2.k) = log ∧
      IsChain c.heap (chain.head?.map Prod.fst) chain ∧
      c.youngest = chain.getLast?.map Prod.fst ∧
      (∀ k p, mapGet c.lookup k = some p ↔ ∃ e, (p, e) ∈ chain ∧ e.k = k) := by
  obtain ⟨-, h2, -, h4, h5, h6⟩ := hinv
  refine ⟨c.heap.enum, ?_, ?_, ?_, ?_⟩
  · rw [← h2, ← List.enum_map_snd c.heap, List.map_map, List.enum_map_snd]
    rfl
  · have hch := chain_of_links c.heap h4 c.heap 0 rfl
    have hhead : (c.heap.enum.head?).map Prod.fst = if 0 < c.heap.length then some 0 else none := by
      rw [List.head?_eq_getElem?, List.getElem?_enum]
      cases hc : c.heap with
      | nil => simp
      | cons a t => simp
    rw [hhead]
    exact hch
  · rw [h5, List.getLast?_eq_getElem?, List.getElem?_enum, List.enum_length]
    by_cases hn : c.heap.length = 0
    · have hnil : c.heap = [] := List.length_eq_zero.1 hn
      simp [hnil]
    · obtain ⟨e, he⟩ := getElem?_of_lt c.heap (c.heap.length - 1) (by omega)
      simp [hn, he]
  · intro k p
    rw [h6 k p]
    constructor
    · rintro ⟨e, he, hk⟩
      exact ⟨e, List.mk_mem_enum_iff_getElem?.2 he, hk⟩
    · rintro ⟨e, he, hk⟩
      exact ⟨e, List.mk_mem_enum_iff_getElem?.1 he, hk⟩

/-- The index of an insertion-ordered state holds exactly the logged keys. -/
theorem insertionOrdered_index {K V : Type} [DecidableEq K] (c : Cache K V) (log : List K)
    (hinv : InsertionOrdered c log) :
    (∀ k, (∃ p, mapGet c.lookup k = some p) ↔ k ∈ log) ∧ mapLen c.lookup = log.length := by
  obtain ⟨chain, hkeys, -, -, hindex⟩ := insertionOrdered_chain c log hinv
  have hnd : (chain.map (fun pe => pe.2.k)).Nodup := by rw [hkeys]; exact hinv.2.2.1
  constructor
  · intro k
    rw [← hkeys]
    constructor
    · rintro ⟨p, hp⟩
      obtain ⟨e, he, hk⟩ := (hindex k p).1 hp
      exact List.mem_map.2 ⟨(p, e), he, hk⟩
    · intro h
      obtain ⟨⟨p, e⟩, he, hk⟩ := List.mem_map.1 h
      exact ⟨p, (hindex k p).2 ⟨e, he, hk⟩⟩
  · rw [mapLen_eq_chain_length c.lookup chain hnd hindex, ← hkeys, List.length_map]

/-- What a returning `Lookup` can do to the index: nothing, or bind the looked-up
key after a miss and a successful load. -/
theorem Lookup_index {Ctx K V σ : Type} [DecidableEq K] [Inhabited V]
    (eid : Nat) (c : Cache K V) (ctx : Ctx) (key : K) (load : Loader Ctx K V σ) (w : σ)
    (r : LookupResult K V σ) (h : Lookup eid c ctx key load w = some r) :
    r.cache.lookup = c.lookup ∨
      (mapGet c.lookup key = none ∧ (load ctx key w).1.2 = none ∧
        r.cache.lookup = mapSet c.lookup key c.heap.length) := by
  cases hk : mapGet c.lookup key with
  | some p =>
    cases hp : c.heap[p]? with
    | none => simp [Lookup, hk, hp] at h
    | some e =>
      rw [Lookup_hit eid c ctx key load w p e hk hp] at h
      cases h
      exact Or.inl rfl
  | none =>
    rcases hl : load ctx key w with ⟨⟨v, oe⟩, w1⟩
    cases oe with
    | some e =>
      rw [Lookup_fail eid c ctx key load w w1 v e hk hl] at h
      cases h
      exact Or.inl rfl
    | none =>
      right
      refine ⟨rfl, rfl, ?_⟩
      cases hy : c.youngest with
      | none =>
        rw [Lookup_store_first eid c ctx key load w w1 v hk hl hy] at h
        cases h
        rfl
      | some y =>
        cases hye : (c.heap ++ [(⟨key, v, none⟩ : lruCacheEntry K V)])[y]? with
        | none => simp [Lookup, hk, hl, hy, hye] at h
        | some ye =>
          simp only [Lookup, hk, hl, hy, hye, Option.some.injEq] at h
          subst h
          rfl

/-- A completed sweep never adds a key, keeps or removes each binding, and
changes nothing when the index is within capacity. -/
theorem cleanup_index {K V : Type} [DecidableEq K] (fuel : Nat) :
    ∀ (c c1 : Cache K V), cleanup fuel c = some c1 →
      (∀ k, mapGet c1.lookup k = mapGet c.lookup k ∨ mapGet c1.lookup k = none) ∧
      (¬ (mapLen c.lookup : Int) > c.cap → c1 = c) := by
  induction fuel with
  | zero => intro c c1 h; simp [cleanup] at h
  | succ f ih =>
    intro c c1 h
    simp only [cleanup] at h
    split at h
    · rename_i hgt
      refine ⟨?_, fun hn => absurd hgt hn⟩
      cases ho : c.oldest with
      | none =>
        simp only [ho] at h
        cases h
        exact fun k => Or.inl rfl
      | some o =>
        simp only [ho] at h
        cases hp : c.heap[o]? with
        | none => simp [hp] at h
        | some e =>
          simp only [hp] at h
          intro k
          rcases (ih _ c1 h).1 k with h1 | h1
          · rw [h1]
            simp only [mapGet_mapDelete]
            by_cases hke : k = e.k
            · right; simp [hke]
            · left; simp [hke]
          · exact Or.inr h1
    · cases h
      exact ⟨fun k => Or.inl rfl, fun _ => rfl⟩

/-! ### Decimal printing -/

theorem toDigitsCore_small (fuel n : Nat) (ds : List Char) (hf : n < fuel) (h : n < 10) :
    Nat.toDigitsCore 10 fuel n ds = Nat.digitChar n :: ds := by
  obtain ⟨f, rfl⟩ : ∃ f, fuel = f + 1 := ⟨fuel - 1, by omega⟩
  have h1 : n / 10 = 0 := by omega
  have h2 : n % 10 = n := by omega
  simp [Nat.toDigitsCore, h1, h2]

theorem toDigitsCore_step (fuel n : Nat) (ds : List Char) (hf : n < fuel) (h : 10 ≤ n) :
    Nat.toDigitsCore 10 fuel n ds
      = Nat.toDigitsCore 10 (fuel - 1) (n / 10) (Nat.digitChar (n % 10) :: ds) := by
  obtain ⟨f, rfl⟩ : ∃ f, fuel = f + 1 := ⟨fuel - 1, by omega⟩
  have h1 : ¬ n / 10 = 0 := by omega
  simp [Nat.toDigitsCore, h1]

/-- The decimal digits `Nat.repr` prints for a number below 10000. -/
theorem toDigits_lt_10000 (n : Nat) (h : n < 10000) :
    Nat.toDigits 10 n =
      if n < 10 then [Nat.digitChar n]
      else if n < 100 then [Nat.digitChar (n / 10), Nat.digitChar (n % 10)]
      else if n < 1000 then
        [Nat.digitChar (n / 100), Nat.digitChar (n / 10 % 10), Nat.digitChar (n % 10)]
      else [Nat.digitChar (n / 1000), Nat.digitChar (n / 100 % 10),
        Nat.digitChar (n / 10 % 10), Nat.digitChar (n % 10)] := by
  unfold Nat.toDigits
  by_cases h1 : n < 10
  · simp only [h1, if_true]
    exact toDigitsCore_small (n + 1) n [] (by omega) h1
  · simp only [h1, if_false]
    rw [toDigitsCore_step (n + 1) n [] (by omega) (by omega)]
    by_cases h2 : n < 100
    · simp only [h2, if_true]
      exact toDigitsCore_small _ (n / 10) _ (by omega) (by omega)
    · simp only [h2, if_false]
      rw [toDigitsCore_step _ (n / 10) _ (by omega) (by omega)]
      have e1 : n / 10 / 10 = n / 100 := by omega
      have e2 : n / 100 / 10 = n / 1000 := by omega
      by_cases h3 : n < 1000
      · simp only [h3, if_true]
        rw [toDigitsCore_small _ (n / 10 / 10) _ (by omega) (by omega), e1]
      · simp only [h3, if_false]
        rw [toDigitsCore_step _ (n / 10 / 10) _ (by omega) (by omega),
          toDigitsCore_small _ (n / 10 / 10 / 10) _ (by omega) (by omega), e1, e2]

theorem appendInt_four (y : Nat) (h : y < 10000) :
    appendInt (y : Int) 4 =
      String.mk [Nat.digitChar (y / 1000 % 10), Nat.digitChar (y / 100 % 10),
        Nat.digitChar (y / 10 % 10), Nat.digitChar (y % 10)] := by
  have hneg : ¬ ((y : Int) < 0) := by omega
  apply String.ext
  simp only [appendInt, hneg, if_false, Nat.repr, List.asString, Int.natAbs_ofNat,
    String.data_append, String.length, toDigits_lt_10000 y h]
  by_cases h1 : y < 10
  · have a1 : y / 1000 % 10 = 0 := by omega
    have a2 : y / 100 % 10 = 0 := by omega
    have a3 : y / 10 % 10 = 0 := by omega
    have a4 : y % 10 = y := by omega
    simp [h1, a1, a2, a3, a4, List.replicate]
    decide
  · by_cases h2 : y < 100
    · have a1 : y / 1000 % 10 = 0 := by omega
      have a2 : y / 100 % 10 = 0 := by omega
      have a3 : y / 10 % 10 = y / 10 := by omega
      simp [h1, h2, a1, a2, a3, List.replicate]
      decide
    · by_cases h3 : y < 1000
      · have a1 : y / 1000 % 10 = 0 := by omega
        have a2 : y / 100 % 10 = y / 100 := by omega
        simp [h1, h2, h3, a1, a2, List.replicate]
        decide
      · have a1 : y / 1000 % 10 = y / 1000 := by omega
        simp [h1, h2, h3, a1]

theorem appendInt_two (m : Nat) (h : m < 100) :
    appendInt (m : Int) 2 = String.mk [Nat.digitChar (m / 10 % 10), Nat.digitChar (m % 10)] := by
  have hneg : ¬ ((m : Int) < 0) := by omega
  apply String.ext
  simp only [appendInt, hneg, if_false, Nat.repr, List.asString, Int.natAbs_ofNat,
    String.data_append, String.length, toDigits_lt_10000 m (by omega)]
  by_cases h1 : m < 10
  · have a1 : m / 10 % 10 = 0 := by omega
    have a2 : m % 10 = m := by omega
    simp [h1, a1, a2, List.replicate]
    decide
  · have h2 : m < 100 := h
    have a1 : m / 10 % 10 = m / 10 := by omega
    simp [h1, h2, a1]

/-- For a year from 0 to 9999 the layout `2006-01-02` prints YYYY-MM-DD. -/
theorem Birthday_String_isoDate (b : Birthday) (hy0 : 0 ≤ b.year) (hy : b.year ≤ 9999)
    (hm : b.month ≤ 12) (hd : b.day ≤ 31) :
    b.String = isoDate b.year.toNat b.month b.day := by
  obtain ⟨y, m, d⟩ := b
  obtain ⟨yn, rfl⟩ : ∃ yn : Nat, y = (yn : Int) := ⟨y.toNat, (Int.toNat_of_nonneg hy0).symm⟩
  have hyn : yn < 10000 := by
    have : ((yn : Nat) : Int) ≤ 9999 := hy
    omega
  have hm1 : m < 100 := by
    have : m ≤ 12 := hm
    omega
  have hd1 : d < 100 := by
    have : d ≤ 31 := hd
    omega
  apply String.ext
  simp only [Birthday.String, appendInt_four yn hyn, appendInt_two m hm1, appendInt_two d hd1,
    isoDate, Int.toNat_ofNat, String.data_append]
  rfl

/-- Every string in the layout YYYY-MM-DD has ten characters. -/
theorem isoDate_length (year month day : Nat) : (isoDate year month day).length = 10 :=
  rfl

/-- Two separate `fmt.Errorf` values with the same text and cause are not equal
for `errors.Is`. -/
theorem errorsIs_separate_allocations (base : GoError) (text : String) (i j : Nat)
    (hij : i ≠ j) (hbase : errorsIs base (Errorf_w j text base) = false) :
    errorsIs (Errorf_w i text base) (Errorf_w j text base) = false := by
  simp [Errorf_w, errorsIs, hij]
  exact hbase

end Shared

/-! ## Claims -/

/-- C1 (hit without reload). In every cache state in which `key` is present with
stored value `v`, `Lookup` returns `(v, nil)` for every loader and does not
invoke it: the loader's captured state is returned untouched and the call log of
the instrumented loader gains no record.  In particular `New(cap)` followed by a
`Lookup` whose loader succeeds with `v1` returns `(v1, nil)`; every eviction
sweep run afterwards completes and keeps the state; and the next `Lookup` of the
same key returns `(v1, nil)` again without calling its loader. -/
theorem hit_without_reload {Ctx K V σ σ1 : Type} [DecidableEq K] [Inhabited V]
    (eid eid1 eid2 : Nat) (c : Cache K V) (ctx : Ctx) (key : K) (v : V) (load : Loader Ctx K V σ) (w : σ)
    (log : List (Ctx × K)) (hstored : c.stored key = some v)
    (cap : Int) (ctx1 : Ctx) (load1 : Loader Ctx K V σ1) (s s1 : σ1) (v1 : V)
    (hload1 : load1 ctx1 key s = ((v1, none), s1)) :
    (∃ r, Lookup eid c ctx key load w = some r ∧ r.value = v ∧ r.err = none ∧ r.world = w ∧
      r.spawned = false) ∧
    (∃ r, Lookup eid c ctx key (logged load) (w, log) = some r ∧ r.world.2 = log) ∧
    (∃ r1, Lookup eid1 (New cap) ctx1 key load1 s = some r1 ∧ r1.value = v1 ∧ r1.err = none ∧
      (∀ fuel, cleanup (fuel + 1) r1.cache = some r1.cache) ∧
      (∃ r2, Lookup eid2 r1.cache ctx key load w = some r2 ∧ r2.value = v1 ∧ r2.err = none ∧
        r2.world = w) ∧
      (∃ r2, Lookup eid2 r1.cache ctx key (logged load) (w, log) = some r2 ∧ r2.value = v1 ∧
        r2.err = none ∧ r2.world.2 = log)) := by
  obtain ⟨p, e, hk, hp, hv⟩ := (stored_eq_some_iff c key v).1 hstored
  refine ⟨⟨_, Lookup_hit eid c ctx key load w p e hk hp, hv, rfl, rfl, rfl⟩,
    ⟨_, Lookup_hit eid c ctx key (logged load) (w, log) p e hk hp, rfl⟩, ?_⟩
  obtain ⟨r1, hr1, hval, herr, -, -, -, hold, -, hlk, -, hnew, -⟩ :=
    Lookup_store eid1 (New cap : Cache K V) ctx1 key load1 s s1 v1 rfl hload1
      (by intro y hy; cases hy)
  have hk1 : mapGet r1.cache.lookup key = some (New cap : Cache K V).heap.length := by
    rw [hlk, mapGet_mapSet]; simp
  refine ⟨r1, hr1, hval, herr, fun fuel => cleanup_oldest_nil r1.cache fuel (by rw [hold]; rfl),
    ⟨_, Lookup_hit eid2 r1.cache ctx key load w _ _ hk1 hnew, rfl, rfl, rfl⟩,
    ⟨_, Lookup_hit eid2 r1.cache ctx key (logged load) (w, log) _ _ hk1 hnew, rfl, rfl, rfl⟩⟩

/-- Witness for C1: the state reached by the first call of the test `lookup of
same key is cached` (capacity 1, key "key", value 5). -/
theorem hit_without_reload_witness :
    (∃ r, Lookup 0 (⟨1, [("key", 0)], none, some 0, [⟨"key", 5, none⟩]⟩ : Cache String Int) ()
        "key" (countingLoader fun _ => (5 : Int)) 0 = some r ∧
      r.value = 5 ∧ r.err = none ∧ r.world = 0 ∧ r.spawned = false) :=
  (hit_without_reload 0 1 2 (⟨1, [("key", 0)], none, some 0, [⟨"key", 5, none⟩]⟩ : Cache String Int) ()
    "key" 5 (countingLoader fun _ => (5 : Int)) 0 [] (by decide) 1 ()
    (countingLoader fun _ => (5 : Int)) 0 1 5 rfl).1

/-- C2 (capacity bound), evaluated on the code: with capacity 1, inserting keys 1
and 2 and letting the sweep after each insert run to completion leaves two keys
in the index, for every amount of fuel that lets the sweeps complete. -/
theorem capacity_bound_broken :
    ∀ fuel, ∃ c, overfill (fuel + 1) = some c ∧ c.cap = 1 ∧ mapLen c.lookup = 2 ∧
      c.oldest = none := by
  intro fuel
  refine ⟨⟨1, [(2, 1), (1, 0)], none, some 1, [⟨1, "k1", some 1⟩, ⟨2, "k2", none⟩]⟩, ?_,
    rfl, by decide, rfl⟩
  have h1 : Lookup 0 (New 1 : Cache Nat String) () 1 testLoad false
      = some ⟨"k1", none, ⟨1, [(1, 0)], none, some 0, [⟨1, "k1", none⟩]⟩, false, true⟩ := by
    decide
  have h2 : Lookup 0 (⟨1, [(1, 0)], none, some 0, [⟨1, "k1", none⟩]⟩ : Cache Nat String) () 2
      testLoad false
      = some ⟨"k2", none,
          ⟨1, [(2, 1), (1, 0)], none, some 1, [⟨1, "k1", some 1⟩, ⟨2, "k2", none⟩]⟩,
          false, true⟩ := by
    decide
  simp only [overfill, h1, Option.some_bind, cleanup_oldest_nil _ fuel, h2]

/-- C3 (evicts the least-recently-used entry), evaluated on the code: in the test
`evicts least-recently-used entry`, after the sweep has completed, the final
`Lookup(ctx, 2, ...)` is a hit: it returns "k2", leaves `didLookup` false (the
loader is not invoked) and the index still holds all three keys. -/
theorem eviction_test_fails :
    ∃ r, evictionTest 3 = some r ∧ r.value = "k2" ∧ r.err = none ∧ r.world = false ∧
      mapLen r.cache.lookup = 3 ∧ r.cache.cap = 2 ∧ r.cache.stored 1 = some "k1" ∧
      r.cache.stored 2 = some "k2" ∧ r.cache.stored 3 = some "k3" :=
  ⟨⟨"k2", none, ⟨2, [(3, 2), (2, 1), (1, 0)], none, some 2,
      [⟨1, "k1", some 1⟩, ⟨2, "k2", some 2⟩, ⟨3, "k3", none⟩]⟩, false, false⟩,
    by decide, rfl, rfl, rfl, by decide, rfl, by decide, by decide, by decide⟩

/-- C4 (successful miss stores the value). In every memory-safe cache state in
which `key` is absent, when the loader returns `(v, nil)` for `key`, `Lookup`
returns `(v, nil)`; afterwards the index maps `key` to an entry holding `key`
and `v` with no younger neighbour, `c.youngest` is that entry, the previous
youngest entry (if any) links to it, and every key that was in the index is
still mapped to the same entry and the same value. -/
theorem miss_success_stores {Ctx K V σ : Type} [DecidableEq K] [Inhabited V]
    (eid : Nat) (c : Cache K V) (ctx : Ctx) (key : K) (load : Loader Ctx K V σ) (w w1 : σ) (v : V)
    (hvalid : c.Valid) (habs : mapGet c.lookup key = none)
    (hload : load ctx key w = ((v, none), w1)) :
    ∃ r p e, Lookup eid c ctx key load w = some r ∧ r.value = v ∧ r.err = none ∧
      mapGet r.cache.lookup key = some p ∧ r.cache.heap[p]? = some e ∧
      e.k = key ∧ e.v = v ∧ e.younger = none ∧
      r.cache.youngest = some p ∧ r.cache.stored key = some v ∧
      (∀ y, c.youngest = some y → ∃ ye, r.cache.heap[y]? = some ye ∧ ye.younger = some p) ∧
      (∀ k1 p1, mapGet c.lookup k1 = some p1 → mapGet r.cache.lookup k1 = some p1) ∧
      (∀ k1 v1, c.stored k1 = some v1 → r.cache.stored k1 = some v1) := by
  obtain ⟨r, hr, hval, herr, -, -, -, -, hyoung, hlk, -, hnew, hkeep⟩ :=
    Lookup_store eid c ctx key load w w1 v habs hload hvalid.2.2.1
  have hget : mapGet r.cache.lookup key = some c.heap.length := by
    rw [hlk, mapGet_mapSet]; simp
  have hold : ∀ k1 p1, mapGet c.lookup k1 = some p1 → mapGet r.cache.lookup k1 = some p1 := by
    intro k1 p1 h1
    have hne : ¬ k1 = key := by
      intro h; rw [h, habs] at h1; cases h1
    rw [hlk, mapGet_mapSet]; simp [hne, h1]
  refine ⟨r, c.heap.length, ⟨key, v, none⟩, hr, hval, herr, hget, hnew, rfl, rfl, rfl, hyoung,
    ?_, ?_, hold, ?_⟩
  · exact (stored_eq_some_iff r.cache key v).2 ⟨_, _, hget, hnew, rfl⟩
  · intro y hy
    obtain ⟨ye, hye⟩ := getElem?_of_lt c.heap y (hvalid.2.2.1 y hy)
    exact ⟨_, hkeep y ye hye, by simp [hy]⟩
  · intro k1 v1 h1
    obtain ⟨p1, e1, hk1, hp1, hv1⟩ := (stored_eq_some_iff c k1 v1).1 h1
    exact (stored_eq_some_iff r.cache k1 v1).2 ⟨p1, _, hold k1 p1 hk1, hkeep p1 e1 hp1, hv1⟩

/-- Witness for C4: first call of the test `lookup of same key is cached`. -/
theorem miss_success_stores_witness :
    ∃ r p e, Lookup 0 (New 1 : Cache String Int) () "key" (countingLoader fun _ => (5 : Int)) 0
        = some r ∧ r.value = 5 ∧ r.err = none ∧
      mapGet r.cache.lookup "key" = some p ∧ r.cache.heap[p]? = some e ∧
      e.k = "key" ∧ e.v = 5 ∧ e.younger = none ∧
      r.cache.youngest = some p ∧ r.cache.stored "key" = some 5 ∧
      (∀ y, (New 1 : Cache String Int).youngest = some y →
        ∃ ye, r.cache.heap[y]? = some ye ∧ ye.younger = some p) ∧
      (∀ k1 p1, mapGet (New 1 : Cache String Int).lookup k1 = some p1 →
        mapGet r.cache.lookup k1 = some p1) ∧
      (∀ k1 v1, (New 1 : Cache String Int).stored k1 = some v1 →
        r.cache.stored k1 = some v1) :=
  miss_success_stores 0 (New 1 : Cache String Int) () "key" (countingLoader fun _ => (5 : Int))
    0 1 5 (New_valid 1) rfl rfl

/-- C5 (atomicity on loader failure). In every memory-safe cache state in which
`key` is absent, when the loader fails for `key`, `Lookup` returns an error,
spawns no sweep and leaves the whole cache state as it was, so the index size is
unchanged and `key` is still absent; an immediately following `Lookup` of `key`
with a loader returning `(v2, nil)` invokes that loader exactly once, with
`key`, and returns `(v2, nil)`. -/
theorem loader_failure_atomic {Ctx K V σ σ2 : Type} [DecidableEq K] [Inhabited V]
    (eid eid2 : Nat) (c : Cache K V) (ctx : Ctx) (key : K) (load : Loader Ctx K V σ) (w w1 : σ) (v0 : V)
    (e : GoError) (ctx2 : Ctx) (load2 : Loader Ctx K V σ2) (s s2 : σ2) (v2 : V)
    (log : List (Ctx × K))
    (hvalid : c.Valid) (habs : mapGet c.lookup key = none)
    (hload : load ctx key w = ((v0, some e), w1))
    (hload2 : load2 ctx2 key s = ((v2, none), s2)) :
    ∃ r, Lookup eid c ctx key load w = some r ∧ r.err ≠ none ∧ r.cache = c ∧ r.spawned = false ∧
      mapLen r.cache.lookup = mapLen c.lookup ∧ mapGet r.cache.lookup key = none ∧
      ∃ r2, Lookup eid2 r.cache ctx2 key (logged load2) (s, log) = some r2 ∧ r2.value = v2 ∧
        r2.err = none ∧ r2.world = (s2, log ++ [(ctx2, key)]) := by
  refine ⟨_, Lookup_fail eid c ctx key load w w1 v0 e habs hload, by simp, rfl, rfl, rfl, habs, ?_⟩
  have hl2 : logged load2 ctx2 key (s, log) = ((v2, none), (s2, log ++ [(ctx2, key)])) := by
    rw [logged_apply, hload2]
  obtain ⟨r2, hr2, hval, herr, hworld, -⟩ :=
    Lookup_store eid2 c ctx2 key (logged load2) (s, log) _ v2 habs hl2 hvalid.2.2.1
  exact ⟨r2, hr2, hval, herr, hworld⟩

/-- Witness for C5: capacity 1, the first loader fails with "broken", the second
returns 7. -/
theorem loader_failure_atomic_witness :
    ∃ r, Lookup 0 (New 1 : Cache String Int) () "key"
        (failingLoader (GoError.errorString 0 "broken")) 0 = some r ∧
      r.err ≠ none ∧ r.cache = New 1 ∧ r.spawned = false ∧
      mapLen r.cache.lookup = mapLen (New 1 : Cache String Int).lookup ∧
      mapGet r.cache.lookup "key" = none ∧
      ∃ r2, Lookup 0 r.cache () "key" (logged (countingLoader fun _ => (7 : Int))) (0, [])
          = some r2 ∧ r2.value = 7 ∧ r2.err = none ∧ r2.world = (1, [] ++ [((), "key")]) :=
  loader_failure_atomic 0 1 (New 1 : Cache String Int) () "key"
    (failingLoader (GoError.errorString 0 "broken")) 0 1 default (GoError.errorString 0 "broken")
    () (countingLoader fun _ => (7 : Int)) 0 1 7 [] (New_valid 1) rfl rfl rfl

/-- C6 (shape of the failure result). When `key` is absent and the loader fails
with error `e`, `Lookup` returns the zero value of `V` and a non-nil error whose
message is "loading value for key: " followed by the message of `e`, whose
`Unwrap` is `e`, for which `errors.Is(result, e)` holds, and for which
`errors.Is(result, target)` holds for every `target` that `e` is or wraps. -/
theorem failure_result_shape {Ctx K V σ : Type} [DecidableEq K] [Inhabited V]
    (eid : Nat) (c : Cache K V) (ctx : Ctx) (key : K) (load : Loader Ctx K V σ) (w w1 : σ) (v0 : V)
    (e : GoError) (habs : mapGet c.lookup key = none)
    (hload : load ctx key w = ((v0, some e), w1)) :
    ∃ r err, Lookup eid c ctx key load w = some r ∧ r.value = default ∧ r.err = some err ∧
      err.Error = "loading value for key: " ++ e.Error ∧ err.Unwrap = some e ∧
      errorsIs err e = true ∧
      ∀ target, errorsIs e target = true → errorsIs err target = true :=
  ⟨_, _, Lookup_fail eid c ctx key load w w1 v0 e habs hload, rfl, rfl, rfl, rfl,
    errorsIs_Errorf_w eid _ e e (errorsIs_self e),
    fun target h => errorsIs_Errorf_w eid _ e target h⟩

/-- Witness for C6: the test `returns error if lookup func returns error`. -/
theorem failure_result_shape_witness :
    ∃ r err, Lookup 0 (New 1 : Cache String Int) () "key"
        (failingLoader (GoError.errorString 0 "broken")) 0 = some r ∧
      r.value = default ∧ r.err = some err ∧
      err.Error = "loading value for key: " ++ (GoError.errorString 0 "broken").Error ∧
      err.Unwrap = some (GoError.errorString 0 "broken") ∧
      errorsIs err (GoError.errorString 0 "broken") = true ∧
      ∀ target, errorsIs (GoError.errorString 0 "broken") target = true →
        errorsIs err target = true :=
  failure_result_shape 0 (New 1 : Cache String Int) () "key"
    (failingLoader (GoError.errorString 0 "broken")) 0 1 default (GoError.errorString 0 "broken")
    rfl rfl

/-- C7 (single load per miss). In every memory-safe cache state in which `key`
is absent, one call of `Lookup` invokes the loader exactly once, with the
caller's context and exactly `key`, whether the loader succeeds or fails: the
loader's captured state after the call is its state after one invocation, the
call log gains the single record `(ctx, key)`, and what `Lookup` returns is
decided by the result of that one invocation. -/
theorem single_load_per_miss {Ctx K V σ : Type} [DecidableEq K] [Inhabited V]
    (eid : Nat) (c : Cache K V) (ctx : Ctx) (key : K) (load : Loader Ctx K V σ) (w : σ)
    (log : List (Ctx × K)) (hvalid : c.Valid) (habs : mapGet c.lookup key = none) :
    ∃ r, Lookup eid c ctx key (logged load) (w, log) = some r ∧
      r.world = ((load ctx key w).2, log ++ [(ctx, key)]) ∧
      ((load ctx key w).1.2 = none → r.value = (load ctx key w).1.1 ∧ r.err = none) ∧
      (∀ e, (load ctx key w).1.2 = some e →
        r.value = default ∧ r.err = some (Errorf_w eid "loading value for key: " e)) := by
  rcases hl : load ctx key w with ⟨⟨v, oe⟩, w1⟩
  cases oe with
  | none =>
    have hl2 : logged load ctx key (w, log) = ((v, none), (w1, log ++ [(ctx, key)])) := by
      rw [logged_apply, hl]
    obtain ⟨r, hr, hval, herr, hworld, -⟩ :=
      Lookup_store eid c ctx key (logged load) (w, log) _ v habs hl2 hvalid.2.2.1
    exact ⟨r, hr, hworld, fun _ => ⟨hval, herr⟩, fun e he => by cases he⟩
  | some e =>
    have hl2 : logged load ctx key (w, log) = ((v, some e), (w1, log ++ [(ctx, key)])) := by
      rw [logged_apply, hl]
    refine ⟨_, Lookup_fail eid c ctx key (logged load) (w, log) _ v e habs hl2, rfl,
      fun h => ?_, fun e1 he => ?_⟩
    · cases h
    · cases he
      exact ⟨rfl, rfl⟩

/-- Witness for C7: a failing loader on a fresh cache is invoked once. -/
theorem single_load_per_miss_witness :
    ∃ r, Lookup 0 (New 1 : Cache String Int) () "key"
        (logged (failingLoader (GoError.errorString 0 "broken"))) (0, []) = some r ∧
      r.world = (((failingLoader (GoError.errorString 0 "broken") :
          Loader Unit String Int Nat) () "key" 0).2, [] ++ [((), "key")]) ∧
      (((failingLoader (GoError.errorString 0 "broken") :
          Loader Unit String Int Nat) () "key" 0).1.2 = none →
        r.value = ((failingLoader (GoError.errorString 0 "broken") :
          Loader Unit String Int Nat) () "key" 0).1.1 ∧ r.err = none) ∧
      (∀ e, ((failingLoader (GoError.errorString 0 "broken") :
          Loader Unit String Int Nat) () "key" 0).1.2 = some e →
        r.value = default ∧ r.err = some (Errorf_w 0 "loading value for key: " e)) :=
  single_load_per_miss 0 (New 1 : Cache String Int) () "key"
    (failingLoader (GoError.errorString 0 "broken")) 0 [] (New_valid 1) rfl

/-- C8 (errors are raised exactly when the load fails). In every memory-safe
cache state, for every key and loader, `Lookup` returns, and its error is
non-nil if and only if the key is absent from the index and the loader returns
an error for it. -/
theorem error_iff_load_fails {Ctx K V σ : Type} [DecidableEq K] [Inhabited V]
    (eid : Nat) (c : Cache K V) (ctx : Ctx) (key : K) (load : Loader Ctx K V σ) (w : σ)
    (hvalid : c.Valid) :
    ∃ r, Lookup eid c ctx key load w = some r ∧
      (r.err ≠ none ↔ mapGet c.lookup key = none ∧ (load ctx key w).1.2 ≠ none) := by
  cases hk : mapGet c.lookup key with
  | some p =>
    have hlt : p < c.heap.length := hvalid.1 (key, p) (mapGet_mem c.lookup key p hk)
    obtain ⟨e, he⟩ := getElem?_of_lt c.heap p hlt
    exact ⟨_, Lookup_hit eid c ctx key load w p e hk he, by simp⟩
  | none =>
    rcases hl : load ctx key w with ⟨⟨v, oe⟩, w1⟩
    cases oe with
    | none =>
      obtain ⟨r, hr, -, herr, -⟩ := Lookup_store eid c ctx key load w w1 v hk hl hvalid.2.2.1
      exact ⟨r, hr, by simp [herr]⟩
    | some e =>
      exact ⟨_, Lookup_fail eid c ctx key load w w1 v e hk hl, by simp⟩

/-- Witness for C8: the state after the first insert of the caching test, read
with a loader that would fail. -/
theorem error_iff_load_fails_witness :
    ∃ r, Lookup 0 (⟨1, [("key", 0)], none, some 0, [⟨"key", 5, none⟩]⟩ : Cache String Int) ()
        "key" (failingLoader (GoError.errorString 0 "broken")) 0 = some r ∧
      (r.err ≠ none ↔
        mapGet (⟨1, [("key", 0)], none, some 0, [⟨"key", 5, none⟩]⟩ : Cache String Int).lookup
          "key" = none ∧
        ((failingLoader (GoError.errorString 0 "broken") :
          Loader Unit String Int Nat) () "key" 0).1.2 ≠ none) :=
  error_iff_load_fails 0 (⟨1, [("key", 0)], none, some 0, [⟨"key", 5, none⟩]⟩ : Cache String Int)
    () "key" (failingLoader (GoError.errorString 0 "broken")) 0
    (by simp [Cache.Valid])

/-- C9 (promotion on hit), evaluated on the code: after inserting keys 1 and 2
into `New(2)`, the hit `Lookup(1)` returns "k1" but `c.youngest` is still the
entry of key 2 (address 1), not the entry of key 1 (address 0), and the chain
from the entry of key 1 still leads to the entry of key 2. -/
theorem hit_does_not_promote :
    ∃ r, hitAfterTwoInserts = some r ∧ r.value = "k1" ∧ r.err = none ∧
      mapGet r.cache.lookup 1 = some 0 ∧ mapGet r.cache.lookup 2 = some 1 ∧
      r.cache.youngest = some 1 ∧ r.cache.youngest ≠ mapGet r.cache.lookup 1 ∧
      IsChain r.cache.heap (some 0) [(0, ⟨1, "k1", some 1⟩), (1, ⟨2, "k2", none⟩)] :=
  ⟨⟨"k1", none, ⟨2, [(2, 1), (1, 0)], none, some 1, [⟨1, "k1", some 1⟩, ⟨2, "k2", none⟩]⟩,
      false, false⟩,
    by decide, rfl, rfl, by decide, by decide, rfl, by decide, by simp [IsChain]⟩

/-- C10 (eviction order). In every cache state whose chain from `c.oldest` along
the `younger` links lists exactly the entries of the index, with distinct keys,
an eviction sweep with enough fuel completes and removes the first
`max(0, len(c.lookup) - c.cap)` entries of the chain, and nothing else: the chain
from the new `c.oldest` is the rest of the old chain in the same order, the
index holds exactly the entries of that rest under their old addresses, every
key of a removed entry is absent, the index shrinks by the number removed, and
the entries themselves, `c.cap` and `c.youngest` are untouched. -/
theorem eviction_order {K V : Type} [DecidableEq K] (c : Cache K V)
    (chain : List (Nat × lruCacheEntry K V)) (fuel : Nat)
    (hchain : IsChain c.heap c.oldest chain)
    (hnodup : (chain.map (fun pe => pe.2.k)).Nodup)
    (hindex : ∀ k p, mapGet c.lookup k = some p ↔ ∃ e, (p, e) ∈ chain ∧ e.k = k)
    (hfuel : chain.length < fuel) :
    ∃ c1, cleanup fuel c = some c1 ∧
      IsChain c1.heap c1.oldest (chain.drop ((mapLen c.lookup : Int) - c.cap).toNat) ∧
      (∀ k p, mapGet c1.lookup k = some p ↔
        ∃ e, (p, e) ∈ chain.drop ((mapLen c.lookup : Int) - c.cap).toNat ∧ e.k = k) ∧
      (∀ pe ∈ chain.take ((mapLen c.lookup : Int) - c.cap).toNat,
        mapGet c1.lookup pe.2.k = none) ∧
      mapLen c1.lookup = mapLen c.lookup - ((mapLen c.lookup : Int) - c.cap).toNat ∧
      c1.heap = c.heap ∧ c1.cap = c.cap ∧ c1.youngest = c.youngest := by
  have hlen := mapLen_eq_chain_length c.lookup chain hnodup hindex
  obtain ⟨c1, hc1, hheap, hcap, hyoung, hch, hget⟩ :=
    cleanup_chain chain c fuel hchain hnodup hindex hfuel
  rw [hlen]
  generalize ((chain.length : Int) - c.cap).toNat = N at hch hget ⊢
  have hsplit : chain.map (fun pe => pe.2.k)
      = (chain.take N).map (fun pe => pe.2.k) ++ (chain.drop N).map (fun pe => pe.2.k) := by
    rw [← List.map_append, List.take_append_drop]
  have hnd2 := hnodup
  rw [hsplit] at hnd2
  obtain ⟨-, hndd, hdisj⟩ := List.nodup_append.1 hnd2
  have hindex1 : ∀ k p, mapGet c1.lookup k = some p ↔
      ∃ e, (p, e) ∈ chain.drop N ∧ e.k = k := by
    intro k p
    rw [hget k]
    by_cases hk : k ∈ (chain.take N).map (fun pe => pe.2.k)
    · simp only [hk, if_true]
      constructor
      · intro h; cases h
      · rintro ⟨e, he, hke⟩
        exact absurd (List.mem_map.2 ⟨(p, e), he, hke⟩) (fun h => hdisj hk h)
    · simp only [hk, if_false, hindex k p]
      constructor
      · rintro ⟨e, he, hke⟩
        rw [← List.take_append_drop N chain] at he
        rcases List.mem_append.1 he with h | h
        · exact absurd (List.mem_map.2 ⟨(p, e), h, hke⟩) hk
        · exact ⟨e, h, hke⟩
      · rintro ⟨e, he, hke⟩
        exact ⟨e, List.mem_of_mem_drop he, hke⟩
  refine ⟨c1, hc1, by rw [hheap]; exact hch, hindex1, ?_, ?_, hheap, hcap, hyoung⟩
  · intro pe hpe
    rw [hget]
    have : pe.2.k ∈ (chain.take N).map (fun pe => pe.2.k) := List.mem_map.2 ⟨pe, hpe, rfl⟩
    rw [if_pos this]
  · rw [mapLen_eq_chain_length c1.lookup (chain.drop N) hndd hindex1, List.length_drop]

/-- Witness for C10: the sweep on `wellLinked` (three keys, capacity 2) removes
key 1, the oldest entry. -/
theorem eviction_order_witness :
    ∃ c1, cleanup 4 wellLinked = some c1 ∧
      IsChain c1.heap c1.oldest
        (wellLinkedChain.drop ((mapLen wellLinked.lookup : Int) - wellLinked.cap).toNat) ∧
      (∀ k p, mapGet c1.lookup k = some p ↔
        ∃ e, (p, e) ∈ wellLinkedChain.drop
          ((mapLen wellLinked.lookup : Int) - wellLinked.cap).toNat ∧ e.k = k) ∧
      (∀ pe ∈ wellLinkedChain.take ((mapLen wellLinked.lookup : Int) - wellLinked.cap).toNat,
        mapGet c1.lookup pe.2.k = none) ∧
      mapLen c1.lookup
        = mapLen wellLinked.lookup - ((mapLen wellLinked.lookup : Int) - wellLinked.cap).toNat ∧
      c1.heap = wellLinked.heap ∧ c1.cap = wellLinked.cap ∧
      c1.youngest = wellLinked.youngest :=
  eviction_order wellLinked wellLinkedChain 4
    (by simp [IsChain, wellLinked, wellLinkedChain])
    (by decide)
    (by
      intro k p
      simp only [wellLinked, wellLinkedChain, mapGet, List.mem_cons, Prod.mk.injEq,
        List.mem_singleton, List.not_mem_nil, or_false]
      constructor
      · intro h
        split_ifs at h with h3 h2 h1
        · cases h; exact ⟨_, Or.inr (Or.inr ⟨rfl, rfl⟩), h3⟩
        · cases h; exact ⟨_, Or.inr (Or.inl ⟨rfl, rfl⟩), h2⟩
        · cases h; exact ⟨_, Or.inl ⟨rfl, rfl⟩, h1⟩
      · rintro ⟨e, (⟨rfl, rfl⟩ | ⟨rfl, rfl⟩ | ⟨rfl, rfl⟩), rfl⟩ <;> simp)
    (by decide)


/-- C11 (index and recency list agree), evaluated on the code: after `New(2)`
and one successful `Lookup(1)` the index holds key 1 (one key), while `c.oldest`
is `nil`, so the recency list that starts at `c.oldest` is empty: the entry of
key 1 is in the index and not in the list. -/
theorem index_list_disagree :
    ∃ r, Lookup 0 (New 2 : Cache Nat String) () 1 testLoad false = some r ∧
      mapGet r.cache.lookup 1 = some 0 ∧ mapLen r.cache.lookup = 1 ∧
      r.cache.oldest = none ∧ r.cache.youngest = some 0 ∧
      ∀ chain, IsChain r.cache.heap r.cache.oldest chain → chain = [] := by
  refine ⟨⟨"k1", none, ⟨2, [(1, 0)], none, some 0, [⟨1, "k1", none⟩]⟩, false, true⟩,
    by decide, by decide, by decide, rfl, rfl, ?_⟩
  intro chain h
  cases chain with
  | nil => rfl
  | cons hd tl =>
    obtain ⟨p, e⟩ := hd
    exact absurd h.1 (by simp)

/-- C12 as stated, refuted on the code: for the name "lewis" and a getter that
succeeds with the date 10000-01-01, the handler answers 200 with the body
`{"birthday":"10000-01-01"}`. The date is printed with a five-digit year, in
eleven characters, which is not YYYY-MM-DD for any year, month and day. -/
theorem date_layout_refuted :
    (GetBirthdayHandler (GoError.errorString 0 "not found") 7 (constGetter ⟨10000, 1, 1⟩) ()
        "lewis" 0).resp = ⟨200, "\x7b\"birthday\":\"10000-01-01\"\x7d"⟩ ∧
    (⟨10000, 1, 1⟩ : Birthday).String = "10000-01-01" ∧
    (⟨10000, 1, 1⟩ : Birthday).String.length = 11 ∧
    ∀ y m d, (⟨10000, 1, 1⟩ : Birthday).String ≠ isoDate y m d := by
  refine ⟨by decide, by decide, by decide, ?_⟩
  intro y m d h
  have hlen := congrArg String.length h
  rw [isoDate_length] at hlen
  have h11 : (⟨10000, 1, 1⟩ : Birthday).String.length = 11 := by decide
  omega

/-- C12 as amended (HTTP status mapping of the birthday handler). For every
getter, as a function of the path value `n` and of what the getter returns: an
empty name gives status 400 and the getter is not called (its state and call
log are untouched); a getter error that is or wraps `ErrNotFound` gives 404; any
other getter error gives 500; a getter success with date `d` gives 200 with the
body `{"birthday":"..."}` holding `d` printed by `Birthday.String`, that is with
the layout `2006-01-02`, and for a year from 0 to 9999 that text is YYYY-MM-DD:
the four digits of the year, the two digits of the month and the two digits of
the day, separated by hyphens. -/
theorem handler_status_mapping {Ctx σ : Type} (ErrNotFound : GoError) (eid : Nat)
    (getBirthday : Loader Ctx String Birthday σ) (ctx : Ctx) (n : String) (w : σ)
    (log : List (Ctx × String)) :
    (n = "" →
      (GetBirthdayHandler ErrNotFound eid getBirthday ctx n w).resp.status = 400 ∧
      (GetBirthdayHandler ErrNotFound eid getBirthday ctx n w).world = w ∧
      (GetBirthdayHandler ErrNotFound eid (logged getBirthday) ctx n (w, log)).world = (w, log)) ∧
    (n ≠ "" → ∀ e, (getBirthday ctx n w).1.2 = some e → errorsIs e ErrNotFound = true →
      (GetBirthdayHandler ErrNotFound eid getBirthday ctx n w).resp.status = 404) ∧
    (n ≠ "" → ∀ e, (getBirthday ctx n w).1.2 = some e → errorsIs e ErrNotFound = false →
      (GetBirthdayHandler ErrNotFound eid getBirthday ctx n w).resp.status = 500) ∧
    (n ≠ "" → (getBirthday ctx n w).1.2 = none →
      (GetBirthdayHandler ErrNotFound eid getBirthday ctx n w).resp =
        ⟨200, "\x7b\"birthday\":\"" ++ (getBirthday ctx n w).1.1.String ++ "\"\x7d"⟩ ∧
      (GetBirthdayHandler ErrNotFound eid (logged getBirthday) ctx n (w, log)).world.2 =
        log ++ [(ctx, n)] ∧
      (0 ≤ (getBirthday ctx n w).1.1.year → (getBirthday ctx n w).1.1.year ≤ 9999 →
        (getBirthday ctx n w).1.1.month ≤ 12 → (getBirthday ctx n w).1.1.day ≤ 31 →
        (GetBirthdayHandler ErrNotFound eid getBirthday ctx n w).resp =
          ⟨200, "\x7b\"birthday\":\"" ++
            isoDate (getBirthday ctx n w).1.1.year.toNat (getBirthday ctx n w).1.1.month
              (getBirthday ctx n w).1.1.day ++ "\"\x7d"⟩)) := by
  refine ⟨?_, ?_, ?_, ?_⟩
  · intro hn
    simp [GetBirthdayHandler, hn, httpError]
  · intro hn e he hnf
    rcases hg : getBirthday ctx n w with ⟨⟨d, oe⟩, w1⟩
    rw [hg] at he
    cases he
    simp [GetBirthdayHandler, hn, hg, hnf, httpNotFound, httpError]
  · intro hn e he hnf
    rcases hg : getBirthday ctx n w with ⟨⟨d, oe⟩, w1⟩
    rw [hg] at he
    cases he
    simp [GetBirthdayHandler, hn, hg, hnf, httpError]
  · intro hn he
    rcases hg : getBirthday ctx n w with ⟨⟨d, oe⟩, w1⟩
    rw [hg] at he
    cases he
    have hl : logged getBirthday ctx n (w, log) = ((d, none), (w1, log ++ [(ctx, n)])) := by
      rw [logged_apply, hg]
    have hresp : (GetBirthdayHandler ErrNotFound eid getBirthday ctx n w).resp =
        ⟨200, "\x7b\"birthday\":\"" ++ d.String ++ "\"\x7d"⟩ := by
      simp [GetBirthdayHandler, hn, hg]
    refine ⟨hresp, by simp [GetBirthdayHandler, hn, hl], ?_⟩
    intro hy0 hy hm hd
    rw [hresp, Birthday_String_isoDate d hy0 hy hm hd]

/-- Witness for C12: `GET /lewis` with a getter returning 2002-01-22 gives status
200 and the body `{"birthday":"2002-01-22"}`; and a getter error allocated
separately from a wrapped sentinel, with the same text and cause, is not that
sentinel and gives 500. -/
theorem handler_status_mapping_witness :
    (GetBirthdayHandler (GoError.errorString 0 "not found") 7 (constGetter ⟨2002, 1, 22⟩) ()
        "lewis" 0).resp = ⟨200, "\x7b\"birthday\":\"" ++ isoDate 2002 1 22 ++ "\"\x7d"⟩ ∧
    (GetBirthdayHandler (GoError.errorString 0 "not found") 7 (constGetter ⟨2002, 1, 22⟩) ()
        "lewis" 0).resp = ⟨200, "\x7b\"birthday\":\"2002-01-22\"\x7d"⟩ ∧
    (GetBirthdayHandler (GoError.wrapError 1 "not found" (GoError.errorString 0 "no rows")) 7
        (failingGetter (GoError.wrapError 2 "not found" (GoError.errorString 0 "no rows"))) ()
        "lewis" 0).resp.status = 500 :=
  ⟨((handler_status_mapping (GoError.errorString 0 "not found") 7 (constGetter ⟨2002, 1, 22⟩) ()
      "lewis" 0 []).2.2.2 (by decide) rfl).2.2 (by decide) (by decide) (by decide) (by decide),
    by decide,
    (handler_status_mapping (GoError.wrapError 1 "not found" (GoError.errorString 0 "no rows")) 7
      (failingGetter (GoError.wrapError 2 "not found" (GoError.errorString 0 "no rows"))) ()
      "lewis" 0 []).2.2.1 (by decide)
      (GoError.wrapError 2 "not found" (GoError.errorString 0 "no rows")) rfl (by decide)⟩

/-- C13 (generic 500 message), refuted on the code: for the name "lewis" and the
two getter errors "db down" and "timeout", neither of which is `ErrNotFound`,
the responses differ, and the body sent for "db down" is
"an unknown error occurred: db down" plus a newline: it carries the text of the
underlying error. -/
theorem generic_500_refuted :
    errorsIs (GoError.errorString 1 "db down") (GoError.errorString 0 "not found") = false ∧
    errorsIs (GoError.errorString 2 "timeout") (GoError.errorString 0 "not found") = false ∧
    (GetBirthdayHandler (GoError.errorString 0 "not found") 7
        (failingGetter (GoError.errorString 1 "db down")) () "lewis" 0).resp ≠
      (GetBirthdayHandler (GoError.errorString 0 "not found") 7
        (failingGetter (GoError.errorString 2 "timeout")) () "lewis" 0).resp ∧
    (GetBirthdayHandler (GoError.errorString 0 "not found") 7
        (failingGetter (GoError.errorString 1 "db down")) () "lewis" 0).resp =
      ⟨500, "an unknown error occurred: db down\n"⟩ := by
  decide

/-- C13 as amended. For every non-empty name and every two getter errors `e1`
and `e2` that neither are nor wrap `ErrNotFound`, the status is 500 for both
and the two responses are equal whenever `e1` and `e2` have the same message;
the body is "an unknown error occurred: " followed by the message of the
underlying error and a newline, and that message is also written to the
server-side log. -/
theorem unknown_error_response {Ctx σ : Type} (ErrNotFound : GoError) (eid : Nat)
    (get1 get2 : Loader Ctx String Birthday σ) (ctx : Ctx) (n : String) (w w1 w2 : σ)
    (d1 d2 : Birthday) (e1 e2 : GoError) (hn : n ≠ "")
    (hget1 : get1 ctx n w = ((d1, some e1), w1)) (hget2 : get2 ctx n w = ((d2, some e2), w2))
    (hnf1 : errorsIs e1 ErrNotFound = false) (hnf2 : errorsIs e2 ErrNotFound = false) :
    (GetBirthdayHandler ErrNotFound eid get1 ctx n w).resp.status = 500 ∧
    (GetBirthdayHandler ErrNotFound eid get2 ctx n w).resp.status = 500 ∧
    (e1.Error = e2.Error →
      (GetBirthdayHandler ErrNotFound eid get1 ctx n w).resp =
        (GetBirthdayHandler ErrNotFound eid get2 ctx n w).resp) ∧
    (GetBirthdayHandler ErrNotFound eid get1 ctx n w).resp.body =
      "an unknown error occurred: " ++ e1.Error ++ "\n" ∧
    (GetBirthdayHandler ErrNotFound eid get1 ctx n w).slog =
      [("failed to fetch birthday", n, e1.Error)] := by
  have h1 : GetBirthdayHandler ErrNotFound eid get1 ctx n w =
      { resp := httpError (Errorf_w eid "an unknown error occurred: " e1).Error 500,
        world := w1, slog := [("failed to fetch birthday", n, e1.Error)] } := by
    simp [GetBirthdayHandler, hn, hget1, hnf1]
  have h2 : GetBirthdayHandler ErrNotFound eid get2 ctx n w =
      { resp := httpError (Errorf_w eid "an unknown error occurred: " e2).Error 500,
        world := w2, slog := [("failed to fetch birthday", n, e2.Error)] } := by
    simp [GetBirthdayHandler, hn, hget2, hnf2]
  rw [h1, h2]
  refine ⟨rfl, rfl, ?_, rfl, rfl⟩
  intro he
  show httpError ("an unknown error occurred: " ++ e1.Error) 500
    = httpError ("an unknown error occurred: " ++ e2.Error) 500
  rw [he]

/-- Witness for the amended C13: the two errors "db down" and "timeout" on the
name "lewis". -/
theorem unknown_error_response_witness :
    (GetBirthdayHandler (GoError.errorString 0 "not found") 7
        (failingGetter (GoError.errorString 1 "db down")) () "lewis" 0).resp.status = 500 ∧
    (GetBirthdayHandler (GoError.errorString 0 "not found") 7
        (failingGetter (GoError.errorString 2 "timeout")) () "lewis" 0).resp.status = 500 ∧
    ((GoError.errorString 1 "db down").Error = (GoError.errorString 2 "timeout").Error →
      (GetBirthdayHandler (GoError.errorString 0 "not found") 7
        (failingGetter (GoError.errorString 1 "db down")) () "lewis" 0).resp =
      (GetBirthdayHandler (GoError.errorString 0 "not found") 7
        (failingGetter (GoError.errorString 2 "timeout")) () "lewis" 0).resp) ∧
    (GetBirthdayHandler (GoError.errorString 0 "not found") 7
        (failingGetter (GoError.errorString 1 "db down")) () "lewis" 0).resp.body =
      "an unknown error occurred: " ++ (GoError.errorString 1 "db down").Error ++ "\n" ∧
    (GetBirthdayHandler (GoError.errorString 0 "not found") 7
        (failingGetter (GoError.errorString 1 "db down")) () "lewis" 0).slog =
      [("failed to fetch birthday", "lewis", (GoError.errorString 1 "db down").Error)] :=
  unknown_error_response (GoError.errorString 0 "not found") 7
    (failingGetter (GoError.errorString 1 "db down"))
    (failingGetter (GoError.errorString 2 "timeout")) () "lewis" 0 1 1 ⟨1, 1, 1⟩ ⟨1, 1, 1⟩
    (GoError.errorString 1 "db down") (GoError.errorString 2 "timeout") (by decide) rfl rfl
    (by decide) (by decide)

/-- C15 (no update path on hit). In every memory-safe cache state in which `key`
is present, `Lookup` returns and leaves the whole cache state as it was (index,
`oldest`, `youngest`, every entry with its `younger` link, `cap`), does not
touch the loader and spawns no sweep.  Hence in every state reached from
`New(cap)` by `Lookup` calls and sweeps, the recency order read along the
`younger` links up to `c.youngest` lists exactly the keys whose load succeeded,
each once, in the order of their insertion, the index maps each of them to its
entry, and a further hit changes neither the state nor that order. -/
theorem hit_leaves_state {Ctx K V σ : Type} [DecidableEq K] [Inhabited V]
    (eid : Nat) (c : Cache K V) (ctx : Ctx) (key : K) (p : Nat) (load : Loader Ctx K V σ) (w : σ)
    (hvalid : c.Valid) (hpresent : mapGet c.lookup key = some p)
    (cap : Int) (ops : List (Op Ctx K V σ)) (w0 w1 : σ) (c1 : Cache K V) (log : List K)
    (hrun : run (New cap, (w0, [])) ops = some (c1, (w1, log))) :
    (∃ r, Lookup eid c ctx key load w = some r ∧ r.cache = c ∧ r.spawned = false ∧
      r.world = w ∧ r.err = none) ∧
    (∃ chain : List (Nat × lruCacheEntry K V),
      chain.map (fun pe => pe.2.k) = log ∧
      IsChain c1.heap (chain.head?.map Prod.fst) chain ∧
      c1.youngest = chain.getLast?.map Prod.fst ∧
      (∀ k q, mapGet c1.lookup k = some q ↔ ∃ e, (q, e) ∈ chain ∧ e.k = k)) ∧
    log.Nodup ∧
    (∀ (eid2 : Nat) (ctx2 : Ctx) (key2 : K) (load2 : Loader Ctx K V σ),
      mapGet c1.lookup key2 ≠ none →
      runOp (c1, (w1, log)) (.lookup eid2 ctx2 key2 load2) = some (c1, (w1, log))) := by
  obtain ⟨hinv, -⟩ := run_preserves ops (New cap, (w0, [])) (c1, (w1, log))
    (InsertionOrdered_New cap) hrun
  refine ⟨?_, insertionOrdered_chain c1 log hinv, hinv.2.2.1, ?_⟩
  · obtain ⟨e, he⟩ := getElem?_of_lt c.heap p
      (hvalid.1 (key, p) (mapGet_mem c.lookup key p hpresent))
    exact ⟨_, Lookup_hit eid c ctx key load w p e hpresent he, rfl, rfl, rfl, rfl⟩
  · intro eid2 ctx2 key2 load2 hk
    cases hk2 : mapGet c1.lookup key2 with
    | none => exact absurd hk2 hk
    | some q =>
      obtain ⟨e, he, -⟩ := (hinv.2.2.2.2.2 key2 q).1 hk2
      simp only [runOp, Lookup_hit eid2 c1 ctx2 key2 (recordOk load2) (w1, log) q e hk2 he,
        Option.map_some']

/-- Witness for C15: a hit on key 1 after the operations of the eviction test. -/
theorem hit_leaves_state_witness :
    ∃ r, Lookup 0 (⟨2, [(3, 2), (2, 1), (1, 0)], none, some 2,
        [⟨1, "k1", some 1⟩, ⟨2, "k2", some 2⟩, ⟨3, "k3", none⟩]⟩ : Cache Nat String) () 1
        testLoadFlag false = some r ∧
      r.cache = ⟨2, [(3, 2), (2, 1), (1, 0)], none, some 2,
        [⟨1, "k1", some 1⟩, ⟨2, "k2", some 2⟩, ⟨3, "k3", none⟩]⟩ ∧
      r.spawned = false ∧ r.world = false ∧ r.err = none :=
  (hit_leaves_state 0 (⟨2, [(3, 2), (2, 1), (1, 0)], none, some 2,
      [⟨1, "k1", some 1⟩, ⟨2, "k2", some 2⟩, ⟨3, "k3", none⟩]⟩ : Cache Nat String) () 1 0
    testLoadFlag false (by simp [Cache.Valid]) (by decide) 2 evictionTestOps false false
    ⟨2, [(3, 2), (2, 1), (1, 0)], none, some 2,
      [⟨1, "k1", some 1⟩, ⟨2, "k2", some 2⟩, ⟨3, "k3", none⟩]⟩ [1, 2, 3] (by decide)).1

/-- C16 (entry lifecycle). For every cache state: a `Lookup` returns on every
memory-safe state; when it returns, a key that was absent and is present
afterwards is the looked-up key, which missed and whose load succeeded, and
every key that was present is still bound to the same entry.  A completed sweep
adds no key, and a key it removes was removed from an index with
`len(c.lookup) > c.cap`; a sweep on a state with `len(c.lookup) ≤ c.cap`
completes and changes nothing. -/
theorem entry_lifecycle {Ctx K V σ : Type} [DecidableEq K] [Inhabited V]
    (eid : Nat) (c : Cache K V) (ctx : Ctx) (key : K) (load : Loader Ctx K V σ) (w : σ) :
    (c.Valid → ∃ r, Lookup eid c ctx key load w = some r) ∧
    (∀ r, Lookup eid c ctx key load w = some r →
      (∀ k, mapGet c.lookup k = none → mapGet r.cache.lookup k ≠ none →
        k = key ∧ mapGet c.lookup key = none ∧ (load ctx key w).1.2 = none) ∧
      (∀ k q, mapGet c.lookup k = some q → mapGet r.cache.lookup k = some q)) ∧
    (∀ fuel c1, cleanup fuel c = some c1 →
      (∀ k, mapGet c.lookup k = none → mapGet c1.lookup k = none) ∧
      (∀ k, mapGet c.lookup k ≠ none → mapGet c1.lookup k = none →
        (mapLen c.lookup : Int) > c.cap)) ∧
    ((mapLen c.lookup : Int) ≤ c.cap → ∀ fuel, cleanup (fuel + 1) c = some c) := by
  refine ⟨?_, ?_, ?_, ?_⟩
  · intro hvalid
    cases hk : mapGet c.lookup key with
    | some p =>
      obtain ⟨e, he⟩ := getElem?_of_lt c.heap p
        (hvalid.1 (key, p) (mapGet_mem c.lookup key p hk))
      exact ⟨_, Lookup_hit eid c ctx key load w p e hk he⟩
    | none =>
      rcases hl : load ctx key w with ⟨⟨v, oe⟩, w1⟩
      cases oe with
      | none =>
        obtain ⟨r, hr, -⟩ := Lookup_store eid c ctx key load w w1 v hk hl hvalid.2.2.1
        exact ⟨r, hr⟩
      | some e => exact ⟨_, Lookup_fail eid c ctx key load w w1 v e hk hl⟩
  · intro r hr
    rcases Lookup_index eid c ctx key load w r hr with h | ⟨habs, hok, h⟩
    · rw [h]
      exact ⟨fun k h0 h1 => absurd h0 h1, fun k q hq => hq⟩
    · rw [h]
      constructor
      · intro k h0 h1
        rw [mapGet_mapSet] at h1
        by_cases hk : k = key
        · exact ⟨hk, habs, hok⟩
        · simp only [hk, if_false] at h1
          exact absurd h0 h1
      · intro k q hq
        have hk : ¬ k = key := by
          intro hk; rw [hk, habs] at hq; cases hq
        rw [mapGet_mapSet]
        simp only [hk, if_false, hq]
  · intro fuel c1 h
    obtain ⟨hsub, hsame⟩ := cleanup_index fuel c c1 h
    constructor
    · intro k h0
      rcases hsub k with h1 | h1
      · rw [h1]; exact h0
      · exact h1
    · intro k h0 h1
      by_contra hgt
      rw [hsame hgt] at h1
      exact h0 h1
  · intro hle fuel
    have hn : ¬ (mapLen c.lookup : Int) > c.cap := not_lt.2 hle
    simp only [cleanup, hn, if_false]

/-- Witness for C16: a sweep on `wellLinked` (three keys, capacity 2) adds no key
and removes key 1 only, from an index above capacity. -/
theorem entry_lifecycle_witness :
    (∀ k, mapGet wellLinked.lookup k = none →
      mapGet (⟨2, [(3, 2), (2, 1)], some 1, some 2,
        [⟨1, "k1", some 1⟩, ⟨2, "k2", some 2⟩, ⟨3, "k3", none⟩]⟩ : Cache Nat String).lookup k
        = none) ∧
    (∀ k, mapGet wellLinked.lookup k ≠ none →
      mapGet (⟨2, [(3, 2), (2, 1)], some 1, some 2,
        [⟨1, "k1", some 1⟩, ⟨2, "k2", some 2⟩, ⟨3, "k3", none⟩]⟩ : Cache Nat String).lookup k
        = none →
      (mapLen wellLinked.lookup : Int) > wellLinked.cap) :=
  (entry_lifecycle 0 wellLinked () 1 testLoad false).2.2.1 2
    ⟨2, [(3, 2), (2, 1)], some 1, some 2,
      [⟨1, "k1", some 1⟩, ⟨2, "k2", some 2⟩, ⟨3, "k3", none⟩]⟩ (by decide)

/-- C17 (capacity is unvalidated). For every integer `cap`, zero and negative
values included, `New(cap)` returns a cache whose `cap` is exactly `cap`, whose
index is empty and whose `oldest` and `youngest` are `nil`; the first `Lookup`
of any key on it returns, is a miss, and invokes the loader once with that
key. -/
theorem capacity_unvalidated {Ctx K V σ : Type} [DecidableEq K] [Inhabited V]
    (eid : Nat) (cap : Int) (ctx : Ctx) (key : K) (load : Loader Ctx K V σ) (w : σ)
    (log : List (Ctx × K)) :
    (New cap : Cache K V).cap = cap ∧ (New cap : Cache K V).lookup = [] ∧
    mapLen (New cap : Cache K V).lookup = 0 ∧
    (New cap : Cache K V).oldest = none ∧ (New cap : Cache K V).youngest = none ∧
    mapGet (New cap : Cache K V).lookup key = none ∧
    ∃ r, Lookup eid (New cap : Cache K V) ctx key (logged load) (w, log) = some r ∧
      r.world = ((load ctx key w).2, log ++ [(ctx, key)]) ∧
      ((load ctx key w).1.2 = none → r.value = (load ctx key w).1.1 ∧ r.err = none) := by
  refine ⟨rfl, rfl, rfl, rfl, rfl, rfl, ?_⟩
  rcases hl : load ctx key w with ⟨⟨v, oe⟩, w1⟩
  cases oe with
  | none =>
    have hl2 : logged load ctx key (w, log) = ((v, none), (w1, log ++ [(ctx, key)])) := by
      rw [logged_apply, hl]
    exact ⟨_, Lookup_store_first eid (New cap) ctx key (logged load) (w, log) _ v rfl hl2 rfl,
      rfl, fun _ => ⟨rfl, rfl⟩⟩
  | some e =>
    have hl2 : logged load ctx key (w, log) = ((v, some e), (w1, log ++ [(ctx, key)])) := by
      rw [logged_apply, hl]
    refine ⟨_, Lookup_fail eid (New cap) ctx key (logged load) (w, log) _ v e rfl hl2, rfl,
      fun h => ?_⟩
    cases h

/-- Witness for C17: capacity -3, key "key", a loader returning 5. -/
theorem capacity_unvalidated_witness :
    (New (-3) : Cache String Int).cap = -3 ∧
    ∃ r, Lookup 0 (New (-3) : Cache String Int) () "key"
        (logged (countingLoader fun _ => (5 : Int))) (0, []) = some r ∧
      r.value = 5 ∧ r.err = none ∧ r.world = (1, [((), "key")]) :=
  ⟨(capacity_unvalidated 0 (-3) () "key" (countingLoader fun _ => (5 : Int)) 0 []).1,
    ⟨5, none, ⟨-3, [("key", 0)], none, some 0, [⟨"key", 5, none⟩]⟩, (1, [((), "key")]), true⟩,
    by decide, rfl, rfl, rfl⟩

/-- C18 (the oldest pointer is never set). In every state reached from `New(cap)`
by any sequence of `Lookup` calls and sweeps, for every `cap`: `c.oldest` is
`nil` and `c.cap` is `cap`; every sweep completes at its first test of the loop
condition and leaves the state as it is; the keys in the index are exactly the
keys whose load has succeeded, each counted once by `len(c.lookup)`; and every
further `Lookup` returns. -/
theorem oldest_never_set {Ctx K V σ : Type} [DecidableEq K] [Inhabited V]
    (cap : Int) (ops : List (Op Ctx K V σ)) (w0 w : σ) (c : Cache K V) (log : List K)
    (hrun : run (New cap, (w0, [])) ops = some (c, (w, log))) :
    c.oldest = none ∧ c.cap = cap ∧
    (∀ fuel, cleanup (fuel + 1) c = some c) ∧
    (∀ fuel, runOp (c, (w, log)) (Op.sweep (fuel + 1) : Op Ctx K V σ) = some (c, (w, log))) ∧
    (∀ k, (∃ p, mapGet c.lookup k = some p) ↔ k ∈ log) ∧
    mapLen c.lookup = log.length ∧ log.Nodup ∧
    (∀ (eid : Nat) (ctx : Ctx) (key : K) (load : Loader Ctx K V σ),
      ∃ s1, runOp (c, (w, log)) (.lookup eid ctx key load) = some s1) := by
  obtain ⟨hinv, hcap⟩ := run_preserves ops (New cap, (w0, [])) (c, (w, log))
    (InsertionOrdered_New cap) hrun
  obtain ⟨hidx, hlen⟩ := insertionOrdered_index c log hinv
  refine ⟨hinv.1, hcap, fun fuel => cleanup_oldest_nil c fuel hinv.1, ?_, hidx, hlen,
    hinv.2.2.1, ?_⟩
  · intro fuel
    simp only [runOp, cleanup_oldest_nil c fuel hinv.1, Option.map_some']
  · intro eid ctx key load
    obtain ⟨r, hr, -⟩ := Lookup_insertionOrdered eid c ctx key load w log hinv
    exact ⟨(r.cache, r.world), by simp only [runOp, hr, Option.map_some']⟩

/-- Witness for C18: the operations of the eviction test on `New(2)`; three keys
stay in the index. -/
theorem oldest_never_set_witness :
    (⟨2, [(3, 2), (2, 1), (1, 0)], none, some 2,
        [⟨1, "k1", some 1⟩, ⟨2, "k2", some 2⟩, ⟨3, "k3", none⟩]⟩ : Cache Nat String).oldest
      = none ∧
    mapLen (⟨2, [(3, 2), (2, 1), (1, 0)], none, some 2,
        [⟨1, "k1", some 1⟩, ⟨2, "k2", some 2⟩, ⟨3, "k3", none⟩]⟩ : Cache Nat String).lookup
      = [1, 2, 3].length :=
  ⟨(oldest_never_set 2 evictionTestOps false false
      (⟨2, [(3, 2), (2, 1), (1, 0)], none, some 2,
        [⟨1, "k1", some 1⟩, ⟨2, "k2", some 2⟩, ⟨3, "k3", none⟩]⟩ : Cache Nat String)
      [1, 2, 3] (by decide)).1,
    (oldest_never_set 2 evictionTestOps false false
      (⟨2, [(3, 2), (2, 1), (1, 0)], none, some 2,
        [⟨1, "k1", some 1⟩, ⟨2, "k2", some 2⟩, ⟨3, "k3", none⟩]⟩ : Cache Nat String)
      [1, 2, 3] (by decide)).2.2.2.2.2.1⟩

end Lancslru
